import Mathlib

/-! # bc-cli: `create depository`

A shallow embedding of `pkg/depository/create.go` and `pkg/common/common.go`.

Go strings and byte slices are lists of bytes.  The command's `RunE` is a
function from its flags and a world (file system, HTTP transport, clock) to an
outcome together with the ordered list of file-system and transport effects it
performed.  The Go standard library functions the command relies on
(`encoding/base64`, `encoding/json` for the four record types involved,
`net/url` form encoding, `strconv`) are modelled concretely; PEM/X.509 parsing
and ECDSA signing are parameters.
-/

set_option maxRecDepth 20000

namespace BcCli

/-! ## Bytes -/

/-- One byte. -/
abbrev Byte := Fin 256

/-- A Go `string` or `[]byte`: an arbitrary sequence of bytes. -/
abbrev Bytes := List Byte

/-- The bytes of an ASCII literal. -/
def ascii (s : String) : Bytes := s.data.map (fun c => Fin.ofNat c.toNat)

/-- Go `strings.HasPrefix` / `bytes.HasPrefix`. -/
def startsWith : Bytes → Bytes → Bool
  | _, [] => true
  | [], _ :: _ => false
  | a :: s, b :: p => a == b && startsWith s p

/-- Go `strings.Contains` / `bytes.Contains`. -/
def containsSub : Bytes → Bytes → Bool
  | [], p => p.isEmpty
  | a :: s, p => startsWith (a :: s) p || containsSub s p

/-- Go `strings.TrimSuffix(s, "/")`: removes one trailing slash, if there is one. -/
def trimSlashSuffix : Bytes → Bytes
  | [] => []
  | [c] => if c = 47 then [] else [c]
  | c :: d :: s => c :: trimSlashSuffix (d :: s)

/-! ## `encoding/base64`, `StdEncoding` -/

/-- The alphabet of `base64.StdEncoding`. -/
def b64Alphabet : Bytes :=
  ascii "ABCDEFGHIJKLMNOPQRSTUVWXYZabcdefghijklmnopqrstuvwxyz0123456789+/"

/-- The padding character `=`. -/
def b64Pad : Byte := 61

/-- The character that encodes the sextet `i`. -/
def b64Char (i : Nat) : Byte := b64Alphabet.getD i 0

/-- The sextet a character encodes (the decode map of `StdEncoding`). -/
def b64Index (c : Byte) : Option Nat :=
  let i := b64Alphabet.indexOf c
  if i < 64 then some i else none

/-- `StdEncoding.EncodeToString`: three bytes become four characters, the last
group is padded with `=`. -/
def b64Encode : Bytes → Bytes
  | [] => []
  | [a] => [b64Char (a.val / 4), b64Char (a.val % 4 * 16), b64Pad, b64Pad]
  | [a, b] =>
    [b64Char (a.val / 4), b64Char (a.val % 4 * 16 + b.val / 16), b64Char (b.val % 16 * 4), b64Pad]
  | a :: b :: c :: rest =>
    b64Char (a.val / 4) :: b64Char (a.val % 4 * 16 + b.val / 16) ::
      b64Char (b.val % 16 * 4 + c.val / 64) :: b64Char (c.val % 64) :: b64Encode rest

/-- The quanta of `StdEncoding.Decode` once line breaks are dropped: groups of
four characters, padding only in the last group, nothing after the padding. -/
def b64DecodeQuanta : Bytes → Option Bytes
  | [] => some []
  | a :: b :: c :: d :: rest =>
    match b64Index a, b64Index b with
    | some ia, some ib =>
      if c = b64Pad then
        if d = b64Pad ∧ rest = [] then some [Fin.ofNat (ia * 4 + ib / 16)] else none
      else
        match b64Index c with
        | none => none
        | some ic =>
          if d = b64Pad then
            if rest = [] then
              some [Fin.ofNat (ia * 4 + ib / 16), Fin.ofNat (ib % 16 * 16 + ic / 4)]
            else none
          else
            match b64Index d with
            | none => none
            | some id =>
              (b64DecodeQuanta rest).map (fun t =>
                Fin.ofNat (ia * 4 + ib / 16) :: Fin.ofNat (ib % 16 * 16 + ic / 4) ::
                  Fin.ofNat (ic % 4 * 64 + id) :: t)
    | _, _ => none
  | _ => none

/-- `StdEncoding.DecodeString`: carriage returns and line feeds are ignored,
every other character must belong to a well-formed quantum. -/
def b64Decode (s : Bytes) : Option Bytes :=
  b64DecodeQuanta (s.filter (fun c => c ≠ 13 ∧ c ≠ 10))

/-- A Go result `(value, err)`: either the value with a nil error, or a non-nil
error, kept as the text of `err.Error()`. -/
inductive GoResult (α : Type) where
  | ok (val : α) : GoResult α
  | error (msg : Bytes) : GoResult α
  deriving DecidableEq

/-! ## `net/url`: query escaping and form values -/

/-- The digits of `upperhex`. -/
def hexUpper : Bytes := ascii "0123456789ABCDEF"

/-- Whether `c` is an ASCII letter or digit. -/
def isAlnum (c : Byte) : Bool :=
  (97 ≤ c.val && c.val ≤ 122) || (65 ≤ c.val && c.val ≤ 90) || (48 ≤ c.val && c.val ≤ 57)

/-- `shouldEscape(c, encodeQueryComponent)`: everything but letters, digits and
`-`, `_`, `.`, `~` is escaped. -/
def shouldEscape (c : Byte) : Bool :=
  !(isAlnum c || c = 45 || c = 95 || c = 46 || c = 126)

/-- `url.QueryEscape` on one byte: a space becomes `+`, an escaped byte becomes
`%XX` with upper-case hex digits. -/
def queryEscapeByte (c : Byte) : Bytes :=
  if c = 32 then [43]
  else if shouldEscape c then [37, hexUpper.getD (c.val / 16) 0, hexUpper.getD (c.val % 16) 0]
  else [c]

/-- `url.QueryEscape`. -/
def queryEscape (s : Bytes) : Bytes := s.flatMap queryEscapeByte

/-- The value of a hex digit (`ishex` and `unhex`), either case. -/
def unhex (c : Byte) : Option Nat :=
  if 48 ≤ c.val ∧ c.val ≤ 57 then some (c.val - 48)
  else if 97 ≤ c.val ∧ c.val ≤ 102 then some (c.val - 97 + 10)
  else if 65 ≤ c.val ∧ c.val ≤ 70 then some (c.val - 65 + 10)
  else none

/-- `url.QueryUnescape`: `%XX` becomes a byte, `+` a space; a `%` that is not
followed by two hex digits is an error. -/
def queryUnescape : Bytes → Option Bytes
  | [] => some []
  | c :: rest =>
    if c = 37 then
      match rest with
      | h1 :: h2 :: rest2 =>
        match unhex h1, unhex h2 with
        | some a, some b => (queryUnescape rest2).map (fun t => Fin.ofNat (a * 16 + b) :: t)
        | _, _ => none
      | _ => none
    else if c = 43 then (queryUnescape rest).map (fun t => 32 :: t)
    else (queryUnescape rest).map (fun t => c :: t)

/-- Go `url.Values`: the values added under each key, in the order they were added. -/
abbrev Values := List (Bytes × List Bytes)

/-- `Values.Add`. -/
def valuesAdd : Values → Bytes → Bytes → Values
  | [], key, value => [(key, [value])]
  | (k, vs) :: rest, key, value =>
    if k = key then (k, vs ++ [value]) :: rest else (k, vs) :: valuesAdd rest key value

/-- Byte-wise lexicographic order, the order of `sort.Strings`. -/
def bytesLt : Bytes → Bytes → Bool
  | [], [] => false
  | [], _ :: _ => true
  | _ :: _, [] => false
  | a :: s, b :: t => a.val < b.val || (a = b && bytesLt s t)

/-- Insertion of one entry into a list of entries sorted by key. -/
def insertByKey (e : Bytes × List Bytes) : Values → Values
  | [] => [e]
  | f :: rest => if bytesLt f.1 e.1 then f :: insertByKey e rest else e :: f :: rest

/-- The entries sorted by key. -/
def sortByKey (v : Values) : Values := v.foldr insertByKey []

/-- Pieces joined with `&`. -/
def joinAmp : List Bytes → Bytes
  | [] => []
  | [x] => x
  | x :: y :: rest => x ++ 38 :: joinAmp (y :: rest)

/-- `Values.Encode`: `key=value` pairs, both escaped, sorted by key and joined with `&`. -/
def valuesEncode (v : Values) : Bytes :=
  joinAmp ((sortByKey v).flatMap (fun e => e.2.map (fun x => queryEscape e.1 ++ 61 :: queryEscape x)))

/-- `strings.Split(s, sep)` for a one-byte separator. -/
def splitOn (sep : Byte) : Bytes → List Bytes
  | [] => [[]]
  | c :: s =>
    if c = sep then [] :: splitOn sep s
    else
      match splitOn sep s with
      | [] => [[c]]
      | seg :: segs => (c :: seg) :: segs

/-- `strings.Cut(s, sep)` for a one-byte separator: the text before the first
separator and the text after it (empty when there is none). -/
def cutAt (sep : Byte) : Bytes → Bytes × Bytes
  | [] => ([], [])
  | c :: s => if c = sep then ([], s) else ((c :: (cutAt sep s).1), (cutAt sep s).2)

/-- One `key=value` setting of `url.ParseQuery`, added to the values read so
far; the flag records whether an error was met. -/
def parseQueryStep (acc : Values × Bool) (seg : Bytes) : Values × Bool :=
  if seg.contains 59 then (acc.1, false)
  else if seg = [] then acc
  else
    match queryUnescape (cutAt 61 seg).1, queryUnescape (cutAt 61 seg).2 with
    | some k, some v => (valuesAdd acc.1 k v, acc.2)
    | _, _ => (acc.1, false)

/-- `url.ParseQuery`: the form values of a body, `none` when a setting is malformed. -/
def parseQuery (query : Bytes) : Option Values :=
  match (splitOn 38 query).foldl parseQueryStep ([], true) with
  | (m, true) => some m
  | (_, false) => none

/-! ## `unicode/utf8` -/

/-- `utf8.RuneError`, U+FFFD. -/
def runeError : Nat := 65533

/-- A continuation byte, `0x80..0xBF`. -/
def isCont (b : Byte) : Bool := 128 ≤ b.val && b.val ≤ 191

/-- `utf8.DecodeRune`: the first rune of the input and its width in bytes;
`(RuneError, 1)` for an invalid or truncated encoding, `(RuneError, 0)` for
empty input.  Over-long encodings, surrogates and values above U+10FFFF are
invalid. -/
def decodeRune : Bytes → Nat × Nat
  | [] => (runeError, 0)
  | b0 :: rest =>
    if b0.val < 128 then (b0.val, 1)
    else if 194 ≤ b0.val ∧ b0.val ≤ 223 then
      match rest with
      | b1 :: _ =>
        if isCont b1 then (b0.val % 32 * 64 + b1.val % 64, 2) else (runeError, 1)
      | [] => (runeError, 1)
    else if 224 ≤ b0.val ∧ b0.val ≤ 239 then
      match rest with
      | b1 :: b2 :: _ =>
        if (if b0.val = 224 then 160 else 128) ≤ b1.val ∧
            b1.val ≤ (if b0.val = 237 then 159 else 191) ∧ isCont b2 then
          (b0.val % 16 * 4096 + b1.val % 64 * 64 + b2.val % 64, 3)
        else (runeError, 1)
      | _ => (runeError, 1)
    else if 240 ≤ b0.val ∧ b0.val ≤ 244 then
      match rest with
      | b1 :: b2 :: b3 :: _ =>
        if (if b0.val = 240 then 144 else 128) ≤ b1.val ∧
            b1.val ≤ (if b0.val = 244 then 143 else 191) ∧ isCont b2 ∧ isCont b3 then
          (b0.val % 8 * 262144 + b1.val % 64 * 4096 + b2.val % 64 * 64 + b3.val % 64, 4)
        else (runeError, 1)
      | _ => (runeError, 1)
    else (runeError, 1)

/-- `utf8.AppendRune`: the UTF-8 encoding of a rune; surrogates and values
above U+10FFFF are encoded as U+FFFD. -/
def encodeRune (r : Nat) : Bytes :=
  if r < 128 then [Fin.ofNat r]
  else if r < 2048 then [Fin.ofNat (192 + r / 64), Fin.ofNat (128 + r % 64)]
  else if 1114111 < r ∨ (55296 ≤ r ∧ r ≤ 57343) then [239, 191, 189]
  else if r < 65536 then
    [Fin.ofNat (224 + r / 4096), Fin.ofNat (128 + r / 64 % 64), Fin.ofNat (128 + r % 64)]
  else
    [Fin.ofNat (240 + r / 262144), Fin.ofNat (128 + r / 4096 % 64),
      Fin.ofNat (128 + r / 64 % 64), Fin.ofNat (128 + r % 64)]

/-- The loop of `utf8.Valid`, with the input length as fuel. -/
def validUTF8Loop : Nat → Bytes → Bool
  | 0, s => s.isEmpty
  | _ + 1, [] => true
  | fuel + 1, b :: rest =>
    if (decodeRune (b :: rest)).1 = runeError ∧ (decodeRune (b :: rest)).2 = 1 then false
    else validUTF8Loop fuel ((b :: rest).drop (decodeRune (b :: rest)).2)

/-- `utf8.Valid`: the bytes are a sequence of well-formed UTF-8 encodings. -/
def validUTF8 (s : Bytes) : Bool := validUTF8Loop s.length s

/-! ## `strconv` -/

/-- Whether `c` is a decimal digit. -/
def isDigit (c : Byte) : Bool := 48 ≤ c.val && c.val ≤ 57

/-- The decimal digits of `n` in front of `acc`, most significant first. -/
def formatUintAux : Nat → Nat → Bytes → Bytes
  | 0, _, acc => acc
  | fuel + 1, n, acc =>
    if n < 10 then Fin.ofNat (48 + n) :: acc
    else formatUintAux fuel (n / 10) (Fin.ofNat (48 + n % 10) :: acc)

/-- `strconv.FormatUint(n, 10)`. -/
def formatUint (n : Nat) : Bytes := formatUintAux (n + 1) n []

/-- `strconv.FormatInt(i, 10)`. -/
def formatInt (i : Int) : Bytes :=
  if i < 0 then 45 :: formatUint i.natAbs else formatUint i.natAbs

/-- The value of a run of decimal digits read after `acc`; `none` at a byte
that is not a digit. -/
def parseDigits : Bytes → Nat → Option Nat
  | [], acc => some acc
  | c :: s, acc => if isDigit c then parseDigits s (acc * 10 + (c.val - 48)) else none

/-- `strconv.ParseUint(s, 10, bits)`: a non-empty run of digits whose value
fits in `bits` bits. -/
def parseUint (bits : Nat) (s : Bytes) : Option Nat :=
  if s = [] then none
  else
    match parseDigits s 0 with
    | some n => if n < 2 ^ bits then some n else none
    | none => none

/-! ## `encoding/json`: writing -/

/-- The digits of `hex` in `encoding/json`. -/
def hexLower : Bytes := ascii "0123456789abcdef"

/-- The table `htmlSafeSet`: the ASCII bytes written without escaping, which
are those from the space on except `"`, `&`, `<`, `>` and the backslash. -/
def htmlSafe (b : Byte) : Bool :=
  32 ≤ b.val && b.val < 128 && b != 34 && b != 38 && b != 60 && b != 62 && b != 92

/-- The body of the loop of `encodeState.string` (HTML escaping on, as
`json.Marshal` sets it), with the input length as fuel.  A quote or backslash
is preceded by a backslash; line feed, carriage return and tab become `\n`,
`\r`, `\t`; the other ASCII bytes outside `htmlSafeSet` become `\u00XX`; a byte
that does not start a well-formed UTF-8 encoding becomes the escape of U+FFFD;
U+2028 and U+2029 are escaped as well; every other rune is copied.  (Later Go
releases write backspace and form feed as `\b` and `\f`; the reader below takes
either form.) -/
def jsonEscapeLoop : Nat → Bytes → Bytes
  | 0, _ => []
  | _ + 1, [] => []
  | fuel + 1, b :: rest =>
    if b.val < 128 then
      if htmlSafe b then b :: jsonEscapeLoop fuel rest
      else if b = 92 ∨ b = 34 then 92 :: b :: jsonEscapeLoop fuel rest
      else if b = 10 then 92 :: 110 :: jsonEscapeLoop fuel rest
      else if b = 13 then 92 :: 114 :: jsonEscapeLoop fuel rest
      else if b = 9 then 92 :: 116 :: jsonEscapeLoop fuel rest
      else
        92 :: 117 :: 48 :: 48 :: hexLower.getD (b.val / 16) 0 :: hexLower.getD (b.val % 16) 0 ::
          jsonEscapeLoop fuel rest
    else if (decodeRune (b :: rest)).1 = runeError ∧ (decodeRune (b :: rest)).2 = 1 then
      92 :: 117 :: 102 :: 102 :: 102 :: 100 :: jsonEscapeLoop fuel rest
    else if (decodeRune (b :: rest)).1 = 8232 ∨ (decodeRune (b :: rest)).1 = 8233 then
      92 :: 117 :: 50 :: 48 :: 50 :: hexLower.getD ((decodeRune (b :: rest)).1 % 16) 0 ::
        jsonEscapeLoop fuel ((b :: rest).drop (decodeRune (b :: rest)).2)
    else
      (b :: rest).take (decodeRune (b :: rest)).2 ++
        jsonEscapeLoop fuel ((b :: rest).drop (decodeRune (b :: rest)).2)

/-- The text of a JSON string between its quotes. -/
def jsonEscape (s : Bytes) : Bytes := jsonEscapeLoop s.length s

/-- A Go string as `json.Marshal` writes it. -/
def jsonQuote (s : Bytes) : Bytes := 34 :: (jsonEscape s ++ [34])

/-! ## `encoding/json`: reading -/

/-- A JSON value as the decoder sees it: a number keeps its literal, a string
is already unquoted. -/
inductive JValue where
  | null : JValue
  | bool (b : Bool) : JValue
  | num (lit : Bytes) : JValue
  | str (s : Bytes) : JValue
  | arr (xs : List JValue) : JValue
  | obj (kvs : List (Bytes × JValue)) : JValue

/-- JSON white space: space, tab, line feed, carriage return. -/
def isSpace (c : Byte) : Bool := c = 32 || c = 9 || c = 10 || c = 13

/-- The input without its leading white space. -/
def skipWS : Bytes → Bytes
  | [] => []
  | c :: s => if isSpace c then skipWS s else c :: s

/-- The function `getu4` on the four bytes after `\u`: their value as hex digits. -/
def getu4 : Bytes → Option Nat
  | a :: b :: c :: d :: _ =>
    match unhex a, unhex b, unhex c, unhex d with
    | some x, some y, some z, some w => some (x * 4096 + y * 256 + z * 16 + w)
    | _, _, _, _ => none
  | _ => none

/-- The byte a one-letter escape stands for. -/
def simpleEscape (e : Byte) : Option Byte :=
  if e = 34 then some 34
  else if e = 92 then some 92
  else if e = 47 then some 47
  else if e = 98 then some 8
  else if e = 102 then some 12
  else if e = 110 then some 10
  else if e = 114 then some 13
  else if e = 116 then some 9
  else none

/-- The second half of a surrogate pair: `getu4` at a following `\uXXXX` when
it is a low surrogate. -/
def lowSurrogate : Bytes → Option Nat
  | 92 :: 117 :: s =>
    match getu4 s with
    | some r1 => if 56320 ≤ r1 ∧ r1 < 57344 then some r1 else none
    | none => none
  | _ => none

/-- A JSON string after its opening quote: the scanner's check and `unquote`
in one pass, with the input length as fuel.  Returns the unquoted bytes and the
input after the closing quote.  Control bytes and unknown escapes are errors;
`\uXXXX` is decoded (a surrogate pair to one rune, a lone surrogate to U+FFFD);
bytes outside ASCII are coerced to well-formed UTF-8 by decoding and encoding
again. -/
def parseString : Nat → Bytes → Option (Bytes × Bytes)
  | 0, _ => none
  | _ + 1, [] => none
  | fuel + 1, c :: rest =>
    if c = 34 then some ([], rest)
    else if c = 92 then
      match rest with
      | [] => none
      | e :: rest2 =>
        if e = 117 then
          match getu4 rest2 with
          | none => none
          | some rr =>
            if 55296 ≤ rr ∧ rr < 57344 then
              match (if rr < 56320 then lowSurrogate (rest2.drop 4) else none) with
              | some rr1 =>
                (parseString fuel (rest2.drop 10)).map (fun p =>
                  (encodeRune ((rr - 55296) * 1024 + (rr1 - 56320) + 65536) ++ p.1, p.2))
              | none =>
                (parseString fuel (rest2.drop 4)).map (fun p => (encodeRune runeError ++ p.1, p.2))
            else (parseString fuel (rest2.drop 4)).map (fun p => (encodeRune rr ++ p.1, p.2))
        else
          match simpleEscape e with
          | none => none
          | some b => (parseString fuel rest2).map (fun p => (b :: p.1, p.2))
    else if c.val < 32 then none
    else if c.val < 128 then (parseString fuel rest).map (fun p => (c :: p.1, p.2))
    else
      (parseString fuel ((c :: rest).drop (decodeRune (c :: rest)).2)).map (fun p =>
        (encodeRune (decodeRune (c :: rest)).1 ++ p.1, p.2))

/-- The bytes a number literal is made of. -/
def isNumChar (c : Byte) : Bool := isDigit c || c = 45 || c = 43 || c = 46 || c = 101 || c = 69

/-- The exponent part of a number, or nothing. -/
def validExp : Bytes → Bool
  | [] => true
  | e :: r =>
    (e = 101 || e = 69) &&
      (match r with
        | [] => false
        | s :: r1 =>
          if s = 43 ∨ s = 45 then
            (match r1 with
              | [] => false
              | d :: r2 => isDigit d && r2.all isDigit)
          else isDigit s && r1.all isDigit)

/-- The fraction and exponent parts of a number, or nothing. -/
def validFrac : Bytes → Bool
  | 46 :: d :: r => isDigit d && validExp (r.dropWhile isDigit)
  | s => validExp s

/-- The text after an optional minus sign. -/
def dropMinus : Bytes → Bytes
  | [] => []
  | c :: r => if c = 45 then r else c :: r

/-- The grammar of a JSON number: `-? (0 | [1-9][0-9]*) (. [0-9]+)? ([eE] [+-]? [0-9]+)?`. -/
def validNumber (s : Bytes) : Bool :=
  match dropMinus s with
  | [] => false
  | d :: r =>
    if d = 48 then validFrac r
    else isDigit d && validFrac (r.dropWhile isDigit)

/-- A number literal at the head of the input: the longest run of number bytes,
which must follow the number grammar. -/
def parseNumber (s : Bytes) : Option (Bytes × Bytes) :=
  if validNumber (s.takeWhile isNumChar) then some (s.takeWhile isNumChar, s.dropWhile isNumChar)
  else none

/-- The constant `maxNestingDepth` of the scanner: a text in which more than
this many objects and arrays are open at once is refused. -/
def maxNestingDepth : Nat := 10000

mutual

/-- A JSON value at the head of the input (after white space) and the input
that follows it; `depth` is the number of objects and arrays that are open
around it.  Each call on a nested value, a further member or a further
element takes one unit of fuel, and each such call comes after at least one
more byte of input is consumed, except the call on the first element of an
array, which comes after the call that consumed its bracket; so a text needs no
more fuel than it has bytes. -/
def parseValue : Nat → Nat → Bytes → Option (JValue × Bytes)
  | 0, _, _ => none
  | fuel + 1, depth, input =>
    match skipWS input with
    | [] => none
    | c :: rest =>
      if c = 34 then (parseString rest.length rest).map (fun p => (JValue.str p.1, p.2))
      else if c = 123 then
        if maxNestingDepth ≤ depth then none
        else
          match skipWS rest with
          | [] => none
          | d :: rest2 =>
            if d = 125 then some (JValue.obj [], rest2)
            else (parseMembers fuel (depth + 1) (d :: rest2)).map (fun p => (JValue.obj p.1, p.2))
      else if c = 91 then
        if maxNestingDepth ≤ depth then none
        else
          match skipWS rest with
          | [] => none
          | d :: rest2 =>
            if d = 93 then some (JValue.arr [], rest2)
            else (parseElements fuel (depth + 1) (d :: rest2)).map (fun p => (JValue.arr p.1, p.2))
      else if startsWith (c :: rest) (ascii "true") then some (JValue.bool true, rest.drop 3)
      else if startsWith (c :: rest) (ascii "false") then some (JValue.bool false, rest.drop 4)
      else if startsWith (c :: rest) (ascii "null") then some (JValue.null, rest.drop 3)
      else (parseNumber (c :: rest)).map (fun p => (JValue.num p.1, p.2))

/-- The members of an object after its opening brace, up to and including the
closing brace; `depth` counts the object itself. -/
def parseMembers : Nat → Nat → Bytes → Option (List (Bytes × JValue) × Bytes)
  | 0, _, _ => none
  | fuel + 1, depth, input =>
    match skipWS input with
    | [] => none
    | c :: rest =>
      if c = 34 then
        match parseString rest.length rest with
        | none => none
        | some (k, r1) =>
          match skipWS r1 with
          | [] => none
          | colon :: r2 =>
            if colon = 58 then
              match parseValue fuel depth r2 with
              | none => none
              | some (v, r3) =>
                match skipWS r3 with
                | [] => none
                | sep :: r4 =>
                  if sep = 44 then
                    (parseMembers fuel depth r4).map (fun p => ((k, v) :: p.1, p.2))
                  else if sep = 125 then some ([(k, v)], r4)
                  else none
            else none
      else none

/-- The elements of an array after its opening bracket, up to and including
the closing bracket; `depth` counts the array itself. -/
def parseElements : Nat → Nat → Bytes → Option (List JValue × Bytes)
  | 0, _, _ => none
  | fuel + 1, depth, input =>
    match parseValue fuel depth input with
    | none => none
    | some (v, r1) =>
      match skipWS r1 with
      | [] => none
      | sep :: r2 =>
        if sep = 44 then (parseElements fuel depth r2).map (fun p => (v :: p.1, p.2))
        else if sep = 93 then some ([v], r2)
        else none

end

/-- A whole JSON text: one value between optional white space (`checkValid`
and the value decoder together), read with one unit of fuel more than the text
has bytes, starting with nothing open. -/
def jsonParse (data : Bytes) : Option JValue :=
  match parseValue (data.length + 1) 0 data with
  | some (v, rest) => if skipWS rest = [] then some v else none
  | none => none

/-- The byte `b & caseMask`: bit 5 cleared, which maps an ASCII letter to its
upper case. -/
def clearCaseBit (n : Nat) : Nat := if n / 32 % 2 = 1 then n - 32 else n

/-- Whether `b` is an ASCII letter. -/
def isLetter (b : Byte) : Bool := 65 ≤ clearCaseBit b.val && clearCaseBit b.val ≤ 90

/-- The case-insensitive comparison of a field name made of ASCII letters with
an object key (`equalFoldRight`): ASCII letters match in either case, `s` also
matches U+017F and `k` also matches U+212A.  An exact match is a special case. -/
def keyMatches : Bytes → Bytes → Bool
  | [], key => key.isEmpty
  | _ :: _, [] => false
  | sb :: s, tb :: t =>
    if tb.val < 128 then
      (sb == tb || (isLetter sb && clearCaseBit sb.val == clearCaseBit tb.val)) && keyMatches s t
    else
      (((sb == 115 || sb == 83) && (decodeRune (tb :: t)).1 == 383) ||
          ((sb == 107 || sb == 75) && (decodeRune (tb :: t)).1 == 8490)) &&
        keyMatches s ((tb :: t).drop (decodeRune (tb :: t)).2)

/-- A JSON value stored into a Go `string`: a string sets it, `null` leaves it,
anything else is a type error. -/
def decodeStringField (cur : Bytes) : JValue → Option Bytes
  | JValue.str s => some s
  | JValue.null => some cur
  | _ => none

/-- A JSON value stored into a Go `uint64`: a number literal that
`strconv.ParseUint` accepts sets it, `null` leaves it, anything else is an
error. -/
def decodeUint64Field (cur : Nat) : JValue → Option Nat
  | JValue.num lit => parseUint 64 lit
  | JValue.null => some cur
  | _ => none

/-- A Go `[]byte` while it is decoded into: its elements, and the bytes of its
backing array from index 0 on, of which the elements are a prefix.  The bytes
after the elements are what an earlier, longer value left there; beyond the
recorded bytes the array holds zeros. -/
structure ByteSlice where
  elems : Bytes
  backing : Bytes
  deriving DecidableEq

/-- The elements of a JSON array stored into a `[]byte` with the given backing
array, from index `i` on: a number that fits a byte is stored; `null` stores
nothing, so the element keeps the byte the backing array holds at its index
(`SetLen` exposes it), which is zero where nothing was stored before. -/
def decodeByteElems (backing : Bytes) : Nat → List JValue → Option Bytes
  | _, [] => some []
  | i, JValue.num lit :: xs =>
    match parseUint 8 lit, decodeByteElems backing (i + 1) xs with
    | some n, some t => some (Fin.ofNat n :: t)
    | _, _ => none
  | i, JValue.null :: xs =>
    (decodeByteElems backing (i + 1) xs).map (fun t => backing.getD i 0 :: t)
  | _, _ :: _ => none

/-- A JSON value stored into a Go `[]byte`: a string is base64-decoded into a
fresh slice, `null` gives the nil slice, an empty array a fresh empty slice, a
non-empty array its elements in the same backing array (whose later bytes
stay), anything else is an error. -/
def decodeBytesField (cur : ByteSlice) : JValue → Option ByteSlice
  | JValue.str s => (b64Decode s).map (fun b => { elems := b, backing := b })
  | JValue.null => some { elems := [], backing := [] }
  | JValue.arr xs =>
    (decodeByteElems cur.backing 0 xs).map (fun e =>
      if e = [] then { elems := [], backing := [] }
      else { elems := e, backing := e ++ cur.backing.drop e.length })
  | _ => none

/-! ## `pkg/common/common.go` -/

/-- The constant `CreateDepository`. -/
def CreateDepository : Bytes := ascii "/basic/putValue"

/-- The constant `CreateUntrustedDepository`. -/
def CreateUntrustedDepository : Bytes := ascii "/basic/putUntrustValue"

/-- The constant `CurrentNonce`. -/
def CurrentNonce : Bytes := ascii "/basic/currentNonce"

/-- The constant `WalletHomeDir`. -/
def WalletHomeDir : Bytes := ascii ".bestchains/wallet"

/-- The Go struct `common.WalletConfig`, with JSON keys `address` and `privKey`. -/
structure WalletConfig where
  Address : Bytes
  PrivateKey : Bytes
  deriving DecidableEq

/-! ## Records whose declarations are outside the two source files -/

/-- Modelled from the spec: the struct `ValueDepository` is used by
`generateValueDepotBase64` but declared elsewhere.  The spec gives its JSON
form as `name`, `contentType`, `contentID`, `platform`, `trustedTimestamp`,
all strings, in this order. -/
structure ValueDepository where
  Name : Bytes
  ContentType : Bytes
  ContentID : Bytes
  Platform : Bytes
  TrustedTimestamp : Bytes
  deriving DecidableEq

/-- Modelled from the spec: `context.Message` of the contracts library, with
JSON form `nonce` (an unsigned 64-bit number), `publicKey`, `signature`. -/
structure Message where
  Nonce : Nat
  PublicKey : Bytes
  Signature : Bytes
  deriving DecidableEq

/-- Modelled from the spec: the struct `nonce` that `getNonce` decodes the
response into is declared elsewhere; its one field `Nonce` is read from the
JSON key `nonce`. -/
structure NonceResponse where
  Nonce : Nat
  deriving DecidableEq

/-! ## `json.Marshal` and `json.Unmarshal` at these records -/

/-- `json.Marshal` of a `ValueDepository`.  It cannot fail: every field is a string. -/
def jsonMarshalValueDepository (v : ValueDepository) : GoResult Bytes :=
  GoResult.ok
    (123 :: (jsonQuote (ascii "name") ++ 58 :: (jsonQuote v.Name ++ 44 ::
      (jsonQuote (ascii "contentType") ++ 58 :: (jsonQuote v.ContentType ++ 44 ::
      (jsonQuote (ascii "contentID") ++ 58 :: (jsonQuote v.ContentID ++ 44 ::
      (jsonQuote (ascii "platform") ++ 58 :: (jsonQuote v.Platform ++ 44 ::
      (jsonQuote (ascii "trustedTimestamp") ++ 58 :: (jsonQuote v.TrustedTimestamp ++
      [125])))))))))))

/-- `json.Marshal` of a `Message`.  It cannot fail either. -/
def jsonMarshalMessage (m : Message) : GoResult Bytes :=
  GoResult.ok
    (123 :: (jsonQuote (ascii "nonce") ++ 58 :: (formatUint m.Nonce ++ 44 ::
      (jsonQuote (ascii "publicKey") ++ 58 :: (jsonQuote m.PublicKey ++ 44 ::
      (jsonQuote (ascii "signature") ++ 58 :: (jsonQuote m.Signature ++ [125])))))))

/-- A `WalletConfig` while it is decoded into: the record, and the backing
array of its `PrivateKey`. -/
structure WalletDecoding where
  obj : WalletConfig
  keyBacking : Bytes
  deriving DecidableEq

/-- One member of a JSON object stored into a `WalletConfig`; unknown keys are skipped. -/
def walletMember (s : WalletDecoding) (kv : Bytes × JValue) : Option WalletDecoding :=
  if keyMatches (ascii "address") kv.1 then
    (decodeStringField s.obj.Address kv.2).map (fun a =>
      { s with obj := { s.obj with Address := a } })
  else if keyMatches (ascii "privKey") kv.1 then
    (decodeBytesField { elems := s.obj.PrivateKey, backing := s.keyBacking } kv.2).map (fun k =>
      { obj := { s.obj with PrivateKey := k.elems }, keyBacking := k.backing })
  else some s

/-- One member of a JSON object stored into a `NonceResponse`. -/
def nonceMember (n : NonceResponse) (kv : Bytes × JValue) : Option NonceResponse :=
  if keyMatches (ascii "nonce") kv.1 then
    (decodeUint64Field n.Nonce kv.2).map (fun x => { n with Nonce := x })
  else some n

/-- One member of a JSON object stored into a `ValueDepository`. -/
def valueDepositoryMember (v : ValueDepository) (kv : Bytes × JValue) :
    Option ValueDepository :=
  if keyMatches (ascii "name") kv.1 then
    (decodeStringField v.Name kv.2).map (fun x => { v with Name := x })
  else if keyMatches (ascii "contentType") kv.1 then
    (decodeStringField v.ContentType kv.2).map (fun x => { v with ContentType := x })
  else if keyMatches (ascii "contentID") kv.1 then
    (decodeStringField v.ContentID kv.2).map (fun x => { v with ContentID := x })
  else if keyMatches (ascii "platform") kv.1 then
    (decodeStringField v.Platform kv.2).map (fun x => { v with Platform := x })
  else if keyMatches (ascii "trustedTimestamp") kv.1 then
    (decodeStringField v.TrustedTimestamp kv.2).map (fun x => { v with TrustedTimestamp := x })
  else some v

/-- One member of a JSON object stored into a `Message`. -/
def messageMember (m : Message) (kv : Bytes × JValue) : Option Message :=
  if keyMatches (ascii "nonce") kv.1 then
    (decodeUint64Field m.Nonce kv.2).map (fun x => { m with Nonce := x })
  else if keyMatches (ascii "publicKey") kv.1 then
    (decodeStringField m.PublicKey kv.2).map (fun x => { m with PublicKey := x })
  else if keyMatches (ascii "signature") kv.1 then
    (decodeStringField m.Signature kv.2).map (fun x => { m with Signature := x })
  else some m

/-- A JSON value stored into a struct: an object sets the fields its members
name, from first to last; `null` changes nothing; any other value, and any
member that does not fit its field, is an error. -/
def decodeStruct {α : Type} (member : α → Bytes × JValue → Option α) (init : α) :
    JValue → Option α
  | JValue.obj kvs => kvs.foldlM member init
  | JValue.null => some init
  | _ => none

/-- `json.Unmarshal(data, &obj)` for a struct: `none` stands for a non-nil error. -/
def jsonUnmarshal {α : Type} (member : α → Bytes × JValue → Option α) (data : Bytes)
    (init : α) : Option α :=
  match jsonParse data with
  | none => none
  | some v => decodeStruct member init v

/-- `json.Unmarshal(data, &obj)` for a `WalletConfig` whose `PrivateKey` fills
its backing array, as the nil slice does. -/
def jsonUnmarshalWallet (data : Bytes) (obj : WalletConfig) : Option WalletConfig :=
  (jsonUnmarshal walletMember data { obj := obj, keyBacking := obj.PrivateKey }).map
    (fun s => s.obj)

/-! ## The world a run sees -/

/-- An elliptic-curve private key as `x509.ParseECPrivateKey` returns it; only
its identity matters here. -/
structure ECPrivateKey where
  d : Nat
  deriving DecidableEq

/-- The library functions that are taken as given: path joining, the texts of
JSON errors, the body of PEM decoding, X.509 key parsing and the signing
primitive `Message.GenerateSignature`, which returns the public key and the
signature it stores in the message, or an error, and leaves the nonce as it is. -/
structure Lib where
  filepathJoin : Bytes → Bytes → Bytes
  jsonErrorText : Bytes → Bytes
  pemBlock : Bytes → Option Bytes
  parseECPrivateKey : Bytes → GoResult ECPrivateKey
  generateSignature : Nat → ECPrivateKey → Bytes → GoResult (Bytes × Bytes)

/-- One call of the transport helper `uhttp.Do(url, method, headers, body)`. -/
structure Request where
  url : Bytes
  method : Bytes
  headers : List (Bytes × Bytes)
  body : Bytes
  deriving DecidableEq

/-- The constant `http.MethodGet`. -/
def MethodGet : Bytes := ascii "GET"

/-- The constant `http.MethodPost`. -/
def MethodPost : Bytes := ascii "POST"

/-- The inputs of a run besides the flags: the value of `$HOME`, the file
system (as the answers of `os.Stat` and `os.ReadFile` at each path), the
answers of the transport, and the clock (the Unix time of each successive
reading). -/
structure World where
  home : Bytes
  stat : Bytes → GoResult Unit
  readFile : Bytes → GoResult Bytes
  transport : Request → GoResult Bytes
  clock : Nat → Int

/-- An effect on the file system or the transport. -/
inductive Effect where
  | stat (path : Bytes) : Effect
  | readFile (path : Bytes) : Effect
  | httpDo (req : Request) : Effect
  deriving DecidableEq

/-- What a run did: its file-system and transport effects in order, what it
printed, how often it read the clock, and the nonce and payload handed to each
call of `generateMessageBase64`, which signs that payload. -/
structure Log where
  trace : List Effect
  stdout : List Bytes
  clockReads : Nat
  signed : List (Nat × Bytes)
  deriving DecidableEq

/-- How `RunE` ends: it returns nil, it returns an error, or the process
panics on a nil pointer. -/
inductive Outcome where
  | ok : Outcome
  | error (msg : Bytes) : Outcome
  | panic : Outcome
  deriving DecidableEq

/-- The values of the command's flags.  `RunE` reads nothing else of the
command line: its positional arguments are not used. -/
structure Flags where
  name : Bytes
  contentType : Bytes
  contentID : Bytes
  platform : Bytes
  untrusted : Bool
  wallet : Bytes
  account : Bytes
  host : Bytes
  deriving DecidableEq

/-- The variable `common.WalletConfigDir`, set when the package is loaded. -/
def WalletConfigDir (lib : Lib) (w : World) : Bytes := lib.filepathJoin w.home WalletHomeDir

/-- The start of a PEM block, `pemStart`. -/
def pemStart : Bytes := 10 :: ascii "-----BEGIN "

/-- `pem.Decode`, first result: `none` is the nil block.  Data in which no
block start is found has no block; what follows a block start is left to
`Lib.pemBlock`. -/
def pemDecode (lib : Lib) (data : Bytes) : Option Bytes :=
  if startsWith data (pemStart.drop 1) || containsSub data pemStart then lib.pemBlock data
  else none

/-! ## `pkg/depository/create.go` -/

/-- The function `generateValueDepotBase64`, given the clock reading of its
call to `time.Now().Unix()`. -/
def generateValueDepotBase64 (now : Int) (name contentType contentID platform : Bytes) : Bytes :=
  let valDep : ValueDepository :=
    { Name := name
      ContentType := contentType
      ContentID := contentID
      TrustedTimestamp := formatInt now
      Platform := platform }
  match jsonMarshalValueDepository valDep with
  | GoResult.error _ => []
  | GoResult.ok rawVal => b64Encode rawVal

/-- The function `generateMessageBase64`.  The check of `err` after the base64
encoding tests the value left by `json.Marshal`, which is nil there. -/
def generateMessageBase64 (lib : Lib) (nonce : Nat) (key : ECPrivateKey) (value : Bytes) :
    Bytes :=
  let msg : Message := { Nonce := nonce, PublicKey := [], Signature := [] }
  match lib.generateSignature msg.Nonce key value with
  | GoResult.error e => ascii "Fatal: generate signature failed: " ++ e
  | GoResult.ok sig =>
    match jsonMarshalMessage { msg with PublicKey := sig.1, Signature := sig.2 } with
    | GoResult.error e => ascii "Fatal: marshal failed: " ++ e
    | GoResult.ok msgJson => b64Encode msgJson

/-- The function `getNonce`, with the transport call it makes. -/
def getNonce (w : World) (h account : Bytes) : Nat × List Effect :=
  let getReqValue := valuesAdd [] (ascii "account") account
  let host := h ++ (CurrentNonce ++ (ascii "?" ++ valuesEncode getReqValue))
  let req : Request := { url := host, method := MethodGet, headers := [], body := [] }
  match w.transport req with
  | GoResult.error _ => (0, [Effect.httpDo req])
  | GoResult.ok resp =>
    match jsonUnmarshal nonceMember resp { Nonce := 0 } with
    | none => (0, [Effect.httpDo req])
    | some n => (n.Nonce, [Effect.httpDo req])

/-- The directory `getWalletInfo` looks in: the default when the argument is
empty, with one trailing slash removed. -/
def resolveWalletDir (lib : Lib) (w : World) (walletDir : Bytes) : Bytes :=
  trimSlashSuffix (if walletDir = [] then WalletConfigDir lib w else walletDir)

/-- The function `getWalletInfo`, with the file-system effects it has.  The
record Go returns beside a non-nil error is not kept. -/
def getWalletInfo (lib : Lib) (w : World) (walletDir account : Bytes) :
    GoResult WalletConfig × List Effect :=
  let walletDir := resolveWalletDir lib w walletDir
  match w.stat walletDir with
  | GoResult.error e => (GoResult.error (ascii "walletDir error: " ++ e), [Effect.stat walletDir])
  | GoResult.ok _ =>
    let path := walletDir ++ (ascii "/" ++ account)
    match w.readFile path with
    | GoResult.error e =>
      (GoResult.error (ascii "read file error: " ++ e),
        [Effect.stat walletDir, Effect.readFile path])
    | GoResult.ok objBytes =>
      match jsonUnmarshalWallet objBytes { Address := [], PrivateKey := [] } with
      | none =>
        (GoResult.error (ascii "unmarshal error: " ++ lib.jsonErrorText objBytes),
          [Effect.stat walletDir, Effect.readFile path])
      | some obj =>
        if obj.Address ≠ account then
          (GoResult.error (ascii "account " ++ (account ++ ascii " not found")),
            [Effect.stat walletDir, Effect.readFile path])
        else (GoResult.ok obj, [Effect.stat walletDir, Effect.readFile path])

/-- The header map both POST requests carry. -/
def formHeaders : List (Bytes × Bytes) :=
  [(ascii "Content-Type", ascii "application/x-www-form-urlencoded")]

/-- The `RunE` function of the command returned by `NewCreateDepositoryCmd`. -/
def runE (lib : Lib) (w : World) (f : Flags) : Outcome × Log :=
  if f.host = [] then
    (Outcome.error (ascii "no host provided"),
      { trace := [], stdout := [], clockReads := 0, signed := [] })
  else
    let valueBase64 := generateValueDepotBase64 (w.clock 0) f.name f.contentType f.contentID f.platform
    if f.untrusted then
      let banner := ascii "putting untrusted value...\n"
      let postValue := valuesAdd [] (ascii "value") valueBase64
      let req : Request :=
        { url := f.host ++ CreateUntrustedDepository
          method := MethodPost
          headers := formHeaders
          body := valuesEncode postValue }
      match w.transport req with
      | GoResult.error e =>
        (Outcome.error e,
          { trace := [Effect.httpDo req], stdout := [banner], clockReads := 1, signed := [] })
      | GoResult.ok resp =>
        (Outcome.ok,
          { trace := [Effect.httpDo req], stdout := [banner, resp], clockReads := 1, signed := [] })
    else
      match getWalletInfo lib w f.wallet f.account with
      | (GoResult.error e, tr) =>
        (Outcome.error e, { trace := tr, stdout := [], clockReads := 1, signed := [] })
      | (GoResult.ok obj, tr) =>
        match pemDecode lib obj.PrivateKey with
        -- `pkEncoded.Bytes` with a nil `pkEncoded`: a nil pointer dereference
        | none => (Outcome.panic, { trace := tr, stdout := [], clockReads := 1, signed := [] })
        | some pkEncoded =>
          match lib.parseECPrivateKey pkEncoded with
          | GoResult.error e =>
            (Outcome.error e, { trace := tr, stdout := [], clockReads := 1, signed := [] })
          | GoResult.ok pk =>
            let nonce := getNonce w f.host obj.Address
            let msgBase64 := generateMessageBase64 lib nonce.1 pk valueBase64
            let postValue := valuesAdd (valuesAdd [] (ascii "message") msgBase64) (ascii "value") valueBase64
            let req : Request :=
              { url := f.host ++ CreateDepository
                method := MethodPost
                headers := formHeaders
                body := valuesEncode postValue }
            match w.transport req with
            | GoResult.error e =>
              (Outcome.error e,
                { trace := tr ++ (nonce.2 ++ [Effect.httpDo req]), stdout := [], clockReads := 1,
                  signed := [(nonce.1, valueBase64)] })
            | GoResult.ok resp =>
              (Outcome.ok,
                { trace := tr ++ (nonce.2 ++ [Effect.httpDo req]), stdout := [resp],
                  clockReads := 1, signed := [(nonce.1, valueBase64)] })

/-! ## Sample inputs -/

/-- A library whose PEM body and key parser accept everything and whose
signing primitive always succeeds. -/
def sampleLib : Lib :=
  { filepathJoin := fun a b => a ++ 47 :: b
    jsonErrorText := fun _ => ascii "invalid character"
    pemBlock := fun d => some d
    parseECPrivateKey := fun _ => GoResult.ok { d := 1 }
    generateSignature := fun _ _ _ => GoResult.ok (ascii "UEs=", ascii "U0lH") }

/-- A library whose signing primitive always fails. -/
def failingLib : Lib :=
  { sampleLib with generateSignature := fun _ _ _ => GoResult.error (ascii "no entropy") }

/-- A library whose signing primitive returns a public key that is not
well-formed UTF-8. -/
def rawKeyLib : Lib :=
  { sampleLib with generateSignature := fun _ _ _ => GoResult.ok ([255], ascii "U0lH") }

/-- A wallet file for the account `alice` whose key bytes are `-----BEGIN `. -/
def sampleWalletFile : Bytes :=
  ascii "\x7b\"address\":\"alice\",\"privKey\":\"LS0tLS1CRUdJTiA=\"\x7d"

/-- A wallet file for the account `alice` whose key bytes are empty. -/
def emptyKeyWalletFile : Bytes := ascii "\x7b\"address\":\"alice\",\"privKey\":\"\"\x7d"

/-- A world with the directory `/w`, one file in it, a gateway that answers
the nonce request with `7`, and a clock at 1700000000. -/
def sampleWorld (file : Bytes) : World :=
  { home := ascii "/home/u"
    stat := fun p => if p = ascii "/w" then GoResult.ok () else GoResult.error (ascii "no such file")
    readFile := fun p =>
      if p = ascii "/w/alice" then GoResult.ok file else GoResult.error (ascii "no such file")
    transport := fun r =>
      if r.method = MethodGet then GoResult.ok (ascii "\x7b\"nonce\":7\x7d")
      else GoResult.ok (ascii "ok")
    clock := fun _ => 1700000000 }

/-- The sample world with the wallet file of `alice` stored under the name `bob`. -/
def renamedWorld : World :=
  { sampleWorld sampleWalletFile with
    readFile := fun p =>
      if p = ascii "/w/bob" then GoResult.ok sampleWalletFile
      else GoResult.error (ascii "no such file") }

/-- A world in which the root directory exists and holds the wallet file of
`alice`; every other path, the empty path included, does not exist. -/
def rootWorld : World :=
  { sampleWorld sampleWalletFile with
    stat := fun p =>
      if p = ascii "/" then GoResult.ok ()
      else GoResult.error (ascii "stat " ++ (p ++ ascii ": no such file or directory"))
    readFile := fun p =>
      if p = ascii "/alice" then GoResult.ok sampleWalletFile
      else GoResult.error (ascii "open " ++ (p ++ ascii ": no such file or directory")) }

/-- A wallet file that sets `privKey` three times: to four bytes, to one byte,
and to an array of two `null`s. -/
def repeatedKeyWalletFile : Bytes :=
  ascii ("\x7b\"address\":\"alice\",\"privKey\":[9,9,9,9],\"privKey\":[5]," ++
    "\"privKey\":[null,null]\x7d")

/-- The sample world with a transport that fails. -/
def offlineWorld : World :=
  { sampleWorld sampleWalletFile with
    transport := fun _ => GoResult.error (ascii "connection refused") }

/-- The flags of the scenario of the spec, for a trusted submission. -/
def sampleFlags : Flags :=
  { name := ascii "doc1"
    contentType := ascii "pdf"
    contentID := ascii "abc123"
    platform := ascii "linux"
    untrusted := false
    wallet := ascii "/w"
    account := ascii "alice"
    host := ascii "http://h" }

/-! # Lemmas -/

/-! ## Query escaping and form values -/

theorem unhex_hexUpper : ∀ n : Fin 16, unhex (hexUpper.getD n.val 0) = some n.val := by decide

theorem shouldEscape_false : ∀ c : Byte, shouldEscape c = false → c ≠ 37 ∧ c ≠ 43 ∧ c ≠ 38 ∧ c ≠ 61 ∧ c ≠ 59 := by decide

theorem queryEscapeByte_cases : ∀ c : Byte,
    (c = 32 ∧ queryEscapeByte c = [43]) ∨
    (c ≠ 32 ∧ shouldEscape c = true ∧ queryEscapeByte c = [37, hexUpper.getD (c.val / 16) 0, hexUpper.getD (c.val % 16) 0]) ∨
    (shouldEscape c = false ∧ queryEscapeByte c = [c]) := by decide


theorem queryUnescape_plus (rest : Bytes) :
    queryUnescape (43 :: rest) = (queryUnescape rest).map (fun t => 32 :: t) := by
  conv => lhs; unfold queryUnescape
  rfl

theorem queryUnescape_plain (c : Byte) (rest : Bytes) (h1 : c ≠ 37) (h2 : c ≠ 43) :
    queryUnescape (c :: rest) = (queryUnescape rest).map (fun t => c :: t) := by
  conv => lhs; unfold queryUnescape
  simp only [h1, h2, if_false]

theorem queryUnescape_percent (h1 h2 : Byte) (a b : Nat) (rest : Bytes)
    (ha : unhex h1 = some a) (hb : unhex h2 = some b) :
    queryUnescape (37 :: h1 :: h2 :: rest) =
      (queryUnescape rest).map (fun t => Fin.ofNat (a * 16 + b) :: t) := by
  conv => lhs; unfold queryUnescape
  simp only [if_true, ha, hb]

theorem queryUnescape_escapeByte (c : Byte) (rest : Bytes) :
    queryUnescape (queryEscapeByte c ++ rest) = (queryUnescape rest).map (fun t => c :: t) := by
  rcases queryEscapeByte_cases c with ⟨h1, h2⟩ | ⟨h1, h2, h3⟩ | ⟨h1, h2⟩
  · subst h1
    rw [h2]
    exact queryUnescape_plus rest
  · rw [h3]
    have ha := unhex_hexUpper ⟨c.val / 16, by omega⟩
    have hb := unhex_hexUpper ⟨c.val % 16, by omega⟩
    have hc : (Fin.ofNat (c.val / 16 * 16 + c.val % 16) : Byte) = c := by
      apply Fin.ext
      simp [Fin.ofNat]
      omega
    have := queryUnescape_percent _ _ _ _ rest ha hb
    rw [hc] at this
    exact this
  · rw [h2]
    obtain ⟨h37, h43, _⟩ := shouldEscape_false c h1
    exact queryUnescape_plain c rest h37 h43

theorem queryUnescape_queryEscape (s : Bytes) : queryUnescape (queryEscape s) = some s := by
  induction s with
  | nil => rfl
  | cons c s ih =>
    have : queryEscape (c :: s) = queryEscapeByte c ++ queryEscape s := by
      simp [queryEscape]
    rw [this, queryUnescape_escapeByte, ih]
    rfl

theorem hexUpper_noSep : ∀ n : Fin 16,
    hexUpper.getD n.val 0 ≠ 38 ∧ hexUpper.getD n.val 0 ≠ 61 ∧ hexUpper.getD n.val 0 ≠ 59 := by
  decide

theorem queryEscapeByte_noSep (c : Byte) : ∀ x ∈ queryEscapeByte c, x ≠ 38 ∧ x ≠ 61 ∧ x ≠ 59 := by
  intro x hx
  rcases queryEscapeByte_cases c with ⟨_, h2⟩ | ⟨_, _, h3⟩ | ⟨h1, h2⟩
  · rw [h2] at hx
    have : x = 43 := by simpa using hx
    subst this; decide
  · rw [h3] at hx
    have ha := hexUpper_noSep ⟨c.val / 16, by omega⟩
    have hb := hexUpper_noSep ⟨c.val % 16, by omega⟩
    rcases List.mem_cons.mp hx with h | h
    · subst h; decide
    · rcases List.mem_cons.mp h with h | h
      · subst h; exact ha
      · have : x = hexUpper.getD (c.val % 16) 0 := by simpa using h
        subst this; exact hb
  · rw [h2] at hx
    have : x = c := by simpa using hx
    subst this
    obtain ⟨_, _, h38, h61, h59⟩ := shouldEscape_false x h1
    exact ⟨h38, h61, h59⟩

theorem queryEscape_noSep (s : Bytes) : ∀ x ∈ queryEscape s, x ≠ 38 ∧ x ≠ 61 ∧ x ≠ 59 := by
  intro x hx
  simp only [queryEscape, List.mem_flatMap] at hx
  obtain ⟨c, _, hc⟩ := hx
  exact queryEscapeByte_noSep c x hc

theorem splitOn_noSep (sep : Byte) (a : Bytes) (h : sep ∉ a) : splitOn sep a = [a] := by
  induction a with
  | nil => rfl
  | cons c a ih =>
    have hc : c ≠ sep := fun e => h (by simp [e])
    have ha : sep ∉ a := fun e => h (by simp [e])
    simp [splitOn, hc, ih ha]

theorem splitOn_append (sep : Byte) (a b : Bytes) (h : sep ∉ a) :
    splitOn sep (a ++ sep :: b) = a :: splitOn sep b := by
  induction a with
  | nil => simp [splitOn]
  | cons c a ih =>
    have hc : c ≠ sep := fun e => h (by simp [e])
    have ha : sep ∉ a := fun e => h (by simp [e])
    simp [splitOn, hc, ih ha]

theorem cutAt_append (sep : Byte) (a b : Bytes) (h : sep ∉ a) :
    cutAt sep (a ++ sep :: b) = (a, b) := by
  induction a with
  | nil => simp [cutAt]
  | cons c a ih =>
    have hc : c ≠ sep := fun e => h (by simp [e])
    have ha : sep ∉ a := fun e => h (by simp [e])
    simp [cutAt, hc, ih ha]

/-- One escaped `key=value` setting. -/
theorem parseQueryStep_pair (acc : Values) (ok : Bool) (k v : Bytes) :
    parseQueryStep (acc, ok) (queryEscape k ++ 61 :: queryEscape v) = (valuesAdd acc k v, ok) := by
  have hk := queryEscape_noSep k
  have hv := queryEscape_noSep v
  have h59 : (queryEscape k ++ 61 :: queryEscape v).contains 59 = false := by
    have hmem : (59 : Byte) ∉ queryEscape k ++ 61 :: queryEscape v := by
      intro hx
      rcases List.mem_append.mp hx with h | h
      · exact (hk _ h).2.2 rfl
      · rcases List.mem_cons.mp h with h | h
        · exact absurd h (by decide)
        · exact (hv _ h).2.2 rfl
    simpa using hmem
  have hne : queryEscape k ++ 61 :: queryEscape v ≠ [] := by simp
  have hcut : cutAt 61 (queryEscape k ++ 61 :: queryEscape v) = (queryEscape k, queryEscape v) :=
    cutAt_append 61 _ _ (fun h => (hk _ h).2.1 rfl)
  simp only [parseQueryStep, h59, hne, hcut, queryUnescape_queryEscape, if_false, Bool.false_eq_true]

theorem foldl_parseQueryStep (pairs : List (Bytes × Bytes)) : ∀ (acc : Values) (ok : Bool),
    (splitOn 38 (joinAmp (pairs.map (fun p => queryEscape p.1 ++ 61 :: queryEscape p.2)))).foldl
        parseQueryStep (acc, ok) =
      (pairs.foldl (fun m p => valuesAdd m p.1 p.2) acc, ok) := by
  induction pairs with
  | nil => intro acc ok; simp [joinAmp, splitOn, parseQueryStep]
  | cons p rest ih =>
    intro acc ok
    have hno : (38 : Byte) ∉ queryEscape p.1 ++ 61 :: queryEscape p.2 := by
      intro h
      rcases List.mem_append.mp h with h | h
      · exact (queryEscape_noSep _ _ h).1 rfl
      · rcases List.mem_cons.mp h with h | h
        · exact absurd h (by decide)
        · exact (queryEscape_noSep _ _ h).1 rfl
    cases rest with
    | nil =>
      simp only [List.map, joinAmp, splitOn_noSep 38 _ hno, List.foldl, parseQueryStep_pair]
    | cons q rest =>
      have hj : joinAmp (List.map (fun p => queryEscape p.1 ++ 61 :: queryEscape p.2) (p :: q :: rest)) =
          (queryEscape p.1 ++ 61 :: queryEscape p.2) ++ 38 ::
            joinAmp (List.map (fun p => queryEscape p.1 ++ 61 :: queryEscape p.2) (q :: rest)) := by
        simp [joinAmp]
      rw [hj, splitOn_append 38 _ _ hno, List.foldl_cons, parseQueryStep_pair, ih]
      rfl

theorem parseQuery_pairs (pairs : List (Bytes × Bytes)) :
    parseQuery (joinAmp (pairs.map (fun p => queryEscape p.1 ++ 61 :: queryEscape p.2))) =
      some (pairs.foldl (fun m p => valuesAdd m p.1 p.2) []) := by
  simp only [parseQuery, foldl_parseQueryStep]

theorem valuesEncode_value (v : Bytes) :
    valuesEncode (valuesAdd [] (ascii "value") v) = ascii "value=" ++ queryEscape v := by
  have : queryEscape (ascii "value") = ascii "value" := by decide
  simp [valuesEncode, valuesAdd, sortByKey, insertByKey, joinAmp, this]
  rfl

theorem valuesEncode_message_value (m v : Bytes) :
    valuesEncode (valuesAdd (valuesAdd [] (ascii "message") m) (ascii "value") v) =
      ascii "message=" ++ (queryEscape m ++ (ascii "&value=" ++ queryEscape v)) := by
  have h1 : queryEscape (ascii "value") = ascii "value" := by decide
  have h2 : queryEscape (ascii "message") = ascii "message" := by decide
  have h3 : (ascii "message" = ascii "value") = False := by decide
  have h4 : bytesLt (ascii "value") (ascii "message") = false := by decide
  simp [valuesEncode, valuesAdd, sortByKey, insertByKey, joinAmp, h1, h2, h3, h4]
  rfl

/-! ## Base64 -/

theorem b64Index_b64Char : ∀ i : Fin 64, b64Index (b64Char i.val) = some i.val := by decide

theorem b64Char_ne_pad : ∀ i : Fin 64, b64Char i.val ≠ b64Pad := by decide

theorem b64Char_mem : ∀ i : Fin 64, b64Char i.val ∈ b64Alphabet := by decide

theorem b64Char_plain : ∀ i : Fin 64, b64Char i.val ≠ 13 ∧ b64Char i.val ≠ 10 := by decide

theorem b64Index_some_mem : ∀ c : Byte, b64Index c ≠ none → c ∈ b64Alphabet := by decide

/-- Every character `StdEncoding` writes is in its alphabet or is the padding. -/
theorem b64Encode_alphabet (bs : Bytes) : ∀ c ∈ b64Encode bs, c ∈ b64Alphabet ∨ c = b64Pad := by
  induction bs using b64Encode.induct with
  | case1 => intro c hc; simp [b64Encode] at hc
  | case2 a =>
    intro c hc
    have h1 := b64Char_mem ⟨a.val / 4, by omega⟩
    have h2 := b64Char_mem ⟨a.val % 4 * 16, by omega⟩
    simp only [b64Encode, List.mem_cons, List.mem_singleton, List.not_mem_nil, or_false] at hc
    rcases hc with h | h | h | h <;> subst h <;> simp_all
  | case3 a b =>
    intro c hc
    have h1 := b64Char_mem ⟨a.val / 4, by omega⟩
    have h2 := b64Char_mem ⟨a.val % 4 * 16 + b.val / 16, by omega⟩
    have h3 := b64Char_mem ⟨b.val % 16 * 4, by omega⟩
    simp only [b64Encode, List.mem_cons, List.mem_singleton, List.not_mem_nil, or_false] at hc
    rcases hc with h | h | h | h <;> subst h <;> simp_all
  | case4 a b c rest ih =>
    intro x hx
    have h1 := b64Char_mem ⟨a.val / 4, by omega⟩
    have h2 := b64Char_mem ⟨a.val % 4 * 16 + b.val / 16, by omega⟩
    have h3 := b64Char_mem ⟨b.val % 16 * 4 + c.val / 64, by omega⟩
    have h4 := b64Char_mem ⟨c.val % 64, by omega⟩
    simp only [b64Encode, List.mem_cons] at hx
    rcases hx with h | h | h | h | h
    · subst h; exact Or.inl h1
    · subst h; exact Or.inl h2
    · subst h; exact Or.inl h3
    · subst h; exact Or.inl h4
    · exact ih x h

theorem b64Encode_eq_nil (bs : Bytes) : b64Encode bs = [] ↔ bs = [] := by
  cases bs with
  | nil => simp [b64Encode]
  | cons a t =>
    cases t with
    | nil => simp [b64Encode]
    | cons b t =>
      cases t with
      | nil => simp [b64Encode]
      | cons c t => simp [b64Encode]

theorem b64DecodeQuanta_four (a b c d : Byte) (rest : Bytes) (ia ib ic id : Nat)
    (ha : b64Index a = some ia) (hb : b64Index b = some ib) (hc : b64Index c = some ic)
    (hd : b64Index d = some id) (hcp : c ≠ b64Pad) (hdp : d ≠ b64Pad) :
    b64DecodeQuanta (a :: b :: c :: d :: rest) =
      (b64DecodeQuanta rest).map (fun t =>
        Fin.ofNat (ia * 4 + ib / 16) :: Fin.ofNat (ib % 16 * 16 + ic / 4) ::
          Fin.ofNat (ic % 4 * 64 + id) :: t) := by
  conv => lhs; unfold b64DecodeQuanta
  simp only [ha, hb, hc, hd, hcp, hdp, if_false]

theorem b64DecodeQuanta_three (a b c : Byte) (ia ib ic : Nat)
    (ha : b64Index a = some ia) (hb : b64Index b = some ib) (hc : b64Index c = some ic)
    (hcp : c ≠ b64Pad) :
    b64DecodeQuanta [a, b, c, b64Pad] =
      some [Fin.ofNat (ia * 4 + ib / 16), Fin.ofNat (ib % 16 * 16 + ic / 4)] := by
  conv => lhs; unfold b64DecodeQuanta
  simp only [ha, hb, hc, hcp, if_false, if_true]

theorem b64DecodeQuanta_two (a b : Byte) (ia ib : Nat)
    (ha : b64Index a = some ia) (hb : b64Index b = some ib) :
    b64DecodeQuanta [a, b, b64Pad, b64Pad] = some [Fin.ofNat (ia * 4 + ib / 16)] := by
  conv => lhs; unfold b64DecodeQuanta
  simp only [ha, hb, if_true, and_self]

theorem byte_ofNat (a : Byte) (n : Nat) (h : n = a.val) : (Fin.ofNat n : Byte) = a := by
  apply Fin.ext
  subst h
  simp [Fin.ofNat]

/-- The quanta of an encoding decode to the bytes that were encoded. -/
theorem b64DecodeQuanta_b64Encode (bs : Bytes) : b64DecodeQuanta (b64Encode bs) = some bs := by
  induction bs using b64Encode.induct with
  | case1 => rfl
  | case2 a =>
    have h := b64DecodeQuanta_two _ _ _ _ (b64Index_b64Char ⟨a.val / 4, by omega⟩)
      (b64Index_b64Char ⟨a.val % 4 * 16, by omega⟩)
    simp only [b64Encode, h]
    rw [byte_ofNat a _ (by omega)]
  | case3 a b =>
    have h := b64DecodeQuanta_three _ _ _ _ _ _ (b64Index_b64Char ⟨a.val / 4, by omega⟩)
      (b64Index_b64Char ⟨a.val % 4 * 16 + b.val / 16, by omega⟩)
      (b64Index_b64Char ⟨b.val % 16 * 4, by omega⟩) (b64Char_ne_pad ⟨b.val % 16 * 4, by omega⟩)
    simp only [b64Encode, h]
    rw [byte_ofNat a _ (by omega), byte_ofNat b _ (by omega)]
  | case4 a b c rest ih =>
    have h := b64DecodeQuanta_four _ _ _ _ (b64Encode rest) _ _ _ _
      (b64Index_b64Char ⟨a.val / 4, by omega⟩)
      (b64Index_b64Char ⟨a.val % 4 * 16 + b.val / 16, by omega⟩)
      (b64Index_b64Char ⟨b.val % 16 * 4 + c.val / 64, by omega⟩)
      (b64Index_b64Char ⟨c.val % 64, by omega⟩)
      (b64Char_ne_pad ⟨b.val % 16 * 4 + c.val / 64, by omega⟩)
      (b64Char_ne_pad ⟨c.val % 64, by omega⟩)
    simp only [b64Encode, h, ih, Option.map_some']
    rw [byte_ofNat a _ (by omega), byte_ofNat b _ (by omega), byte_ofNat c _ (by omega)]

theorem b64Encode_no_newline (bs : Bytes) :
    (b64Encode bs).filter (fun c => c ≠ 13 ∧ c ≠ 10) = b64Encode bs := by
  rw [List.filter_eq_self]
  intro c hc
  rcases b64Encode_alphabet bs c hc with h | h
  · have : ∀ x ∈ b64Alphabet, x ≠ 13 ∧ x ≠ 10 := by decide
    simpa using this c h
  · subst h; decide

/-- `StdEncoding` decodes what it encoded. -/
theorem b64Decode_b64Encode (bs : Bytes) : b64Decode (b64Encode bs) = some bs := by
  rw [b64Decode, b64Encode_no_newline, b64DecodeQuanta_b64Encode]

theorem b64Index_mem (c : Byte) (i : Nat) (h : b64Index c = some i) : c ∈ b64Alphabet :=
  b64Index_some_mem c (by rw [h]; simp)

/-- Quanta that decode consist of alphabet characters and padding. -/
theorem b64DecodeQuanta_chars (s : Bytes) : ∀ r, b64DecodeQuanta s = some r →
    ∀ c ∈ s, c ∈ b64Alphabet ∨ c = b64Pad := by
  induction s using b64DecodeQuanta.induct with
  | case1 => intro r _ c hc; simp at hc
  | case2 a b d rest ia ib hb ha hd =>
    intro r _ c hc
    obtain ⟨hd1, hd2⟩ := hd
    subst hd1 hd2
    simp only [List.mem_cons, List.mem_singleton, List.not_mem_nil, or_false] at hc
    rcases hc with h | h | h | h
    · subst h; exact Or.inl (b64Index_mem _ _ ha)
    · subst h; exact Or.inl (b64Index_mem _ _ hb)
    · exact Or.inr h
    · exact Or.inr h
  | case3 a b d rest ia ib hb ha hd =>
    intro r h
    conv at h => lhs; unfold b64DecodeQuanta
    simp only [ha, hb, hd, if_true, if_false] at h
    cases h
  | case4 a b c d rest ia ib hb ha hc hci =>
    intro r h
    conv at h => lhs; unfold b64DecodeQuanta
    simp only [ha, hb, hc, hci, if_false] at h
    cases h
  | case5 a b c ia ib hb ha hc ic hci =>
    intro r _ x hx
    simp only [List.mem_cons, List.mem_singleton, List.not_mem_nil, or_false] at hx
    rcases hx with h | h | h | h
    · subst h; exact Or.inl (b64Index_mem _ _ ha)
    · subst h; exact Or.inl (b64Index_mem _ _ hb)
    · subst h; exact Or.inl (b64Index_mem _ _ hci)
    · exact Or.inr h
  | case6 a b c rest ia ib hb ha hc ic hci hrest =>
    intro r h
    conv at h => lhs; unfold b64DecodeQuanta
    simp only [ha, hb, hc, hci, hrest, if_true, if_false] at h
    cases h
  | case7 a b c d rest ia ib hb ha hc ic hci hd hdi =>
    intro r h
    conv at h => lhs; unfold b64DecodeQuanta
    simp only [ha, hb, hc, hci, hd, hdi, if_false] at h
    cases h
  | case8 a b c d rest ia ib hb ha hc ic hci hd id hdi ih =>
    intro r h x hx
    rw [b64DecodeQuanta_four a b c d rest ia ib ic id ha hb hci hdi hc hd] at h
    cases hq : b64DecodeQuanta rest with
    | none => rw [hq] at h; cases h
    | some t =>
      simp only [List.mem_cons] at hx
      rcases hx with h1 | h1 | h1 | h1 | h1
      · subst h1; exact Or.inl (b64Index_mem _ _ ha)
      · subst h1; exact Or.inl (b64Index_mem _ _ hb)
      · subst h1; exact Or.inl (b64Index_mem _ _ hci)
      · subst h1; exact Or.inl (b64Index_mem _ _ hdi)
      · exact ih t hq x h1
  | case9 a b c d rest hab =>
    intro r h
    conv at h => lhs; unfold b64DecodeQuanta
    cases ha : b64Index a with
    | none => simp only [ha] at h; cases h
    | some ia =>
      cases hb : b64Index b with
      | none => simp only [ha, hb] at h; cases h
      | some ib => exact absurd hb (fun hb => hab ia ib ha hb)
  | case10 t h1 h2 =>
    intro r h
    conv at h => lhs; unfold b64DecodeQuanta
    split at h
    · exact absurd rfl h1
    · exact absurd rfl (h2 _ _ _ _ _)
    · cases h

/-- A text that `StdEncoding` decodes has only alphabet characters, padding
and line breaks. -/
theorem b64Decode_chars (s r : Bytes) (h : b64Decode s = some r) :
    ∀ c ∈ s, c ∈ b64Alphabet ∨ c = b64Pad ∨ c = 13 ∨ c = 10 := by
  intro c hc
  by_cases hn : c ≠ 13 ∧ c ≠ 10
  · have hf : c ∈ s.filter (fun c => c ≠ 13 ∧ c ≠ 10) := by
      rw [List.mem_filter]
      exact ⟨hc, by simpa using hn⟩
    rcases b64DecodeQuanta_chars _ r h c hf with h1 | h1
    · exact Or.inl h1
    · exact Or.inr (Or.inl h1)
  · by_cases h13 : c = 13
    · exact Or.inr (Or.inr (Or.inl h13))
    · have : c = 10 := by
        by_contra h10
        exact hn ⟨h13, h10⟩
      exact Or.inr (Or.inr (Or.inr this))

/-! ## UTF-8 -/

/-- The five shapes of the first rune of a non-empty input. -/
theorem decodeRune_cases (b : Byte) (t : Bytes) :
    (b.val < 128 ∧ decodeRune (b :: t) = (b.val, 1)) ∨
    (∃ b1 t1, t = b1 :: t1 ∧ 194 ≤ b.val ∧ b.val ≤ 223 ∧ isCont b1 = true ∧
      decodeRune (b :: t) = (b.val % 32 * 64 + b1.val % 64, 2)) ∨
    (∃ b1 b2 t1, t = b1 :: b2 :: t1 ∧ 224 ≤ b.val ∧ b.val ≤ 239 ∧
      (if b.val = 224 then 160 else 128) ≤ b1.val ∧
      b1.val ≤ (if b.val = 237 then 159 else 191) ∧ isCont b2 = true ∧
      decodeRune (b :: t) = (b.val % 16 * 4096 + b1.val % 64 * 64 + b2.val % 64, 3)) ∨
    (∃ b1 b2 b3 t1, t = b1 :: b2 :: b3 :: t1 ∧ 240 ≤ b.val ∧ b.val ≤ 244 ∧
      (if b.val = 240 then 144 else 128) ≤ b1.val ∧
      b1.val ≤ (if b.val = 244 then 143 else 191) ∧ isCont b2 = true ∧ isCont b3 = true ∧
      decodeRune (b :: t) =
        (b.val % 8 * 262144 + b1.val % 64 * 4096 + b2.val % 64 * 64 + b3.val % 64, 4)) ∨
    (128 ≤ b.val ∧ decodeRune (b :: t) = (runeError, 1)) := by
  by_cases h1 : b.val < 128
  · left; exact ⟨h1, by simp only [decodeRune, h1, if_true]⟩
  · right
    by_cases h2 : 194 ≤ b.val ∧ b.val ≤ 223
    · cases t with
      | nil => right; right; right; exact ⟨by omega, by simp only [decodeRune, h1, h2, and_self, if_true, if_false]⟩
      | cons b1 t1 =>
        by_cases hc : isCont b1 = true
        · left
          exact ⟨b1, t1, rfl, h2.1, h2.2, hc, by simp only [decodeRune, h1, h2, hc, and_self, if_true, if_false]⟩
        · right; right; right
          exact ⟨by omega, by simp only [decodeRune, h1, h2, hc, and_self, if_true, if_false,
            Bool.false_eq_true]⟩
    · right
      by_cases h3 : 224 ≤ b.val ∧ b.val ≤ 239
      · cases t with
        | nil => right; right; exact ⟨by omega, by simp only [decodeRune, h1, h2, h3, and_self, if_true, if_false]⟩
        | cons b1 t1 =>
          cases t1 with
          | nil => right; right; exact ⟨by omega, by simp only [decodeRune, h1, h2, h3, and_self, if_true, if_false]⟩
          | cons b2 t2 =>
            by_cases hc : (if b.val = 224 then 160 else 128) ≤ b1.val ∧
                b1.val ≤ (if b.val = 237 then 159 else 191) ∧ isCont b2 = true
            · left
              exact ⟨b1, b2, t2, rfl, h3.1, h3.2, hc.1, hc.2.1, hc.2.2,
                by simp only [decodeRune, h1, h2, h3, hc, and_self, if_true, if_false]⟩
            · right; right
              exact ⟨by omega, by simp only [decodeRune, h1, h2, h3, hc, and_self, if_true, if_false]⟩
      · right
        by_cases h4 : 240 ≤ b.val ∧ b.val ≤ 244
        · cases t with
          | nil => right; exact ⟨by omega, by simp only [decodeRune, h1, h2, h3, h4, and_self, if_true, if_false]⟩
          | cons b1 t1 =>
            cases t1 with
            | nil => right; exact ⟨by omega, by simp only [decodeRune, h1, h2, h3, h4, and_self, if_true, if_false]⟩
            | cons b2 t2 =>
              cases t2 with
              | nil => right; exact ⟨by omega, by simp only [decodeRune, h1, h2, h3, h4, and_self, if_true, if_false]⟩
              | cons b3 t3 =>
                by_cases hc : (if b.val = 240 then 144 else 128) ≤ b1.val ∧
                    b1.val ≤ (if b.val = 244 then 143 else 191) ∧ isCont b2 = true ∧
                    isCont b3 = true
                · left
                  exact ⟨b1, b2, b3, t3, rfl, h4.1, h4.2, hc.1, hc.2.1, hc.2.2.1, hc.2.2.2,
                    by simp only [decodeRune, h1, h2, h3, h4, hc, and_self, if_true, if_false]⟩
                · right
                  exact ⟨by omega, by simp only [decodeRune, h1, h2, h3, h4, hc, and_self, if_true, if_false]⟩
        · right
          exact ⟨by omega, by simp only [decodeRune, h1, h2, h3, h4, if_false]⟩

theorem decodeRune_size_pos (b : Byte) (t : Bytes) :
    1 ≤ (decodeRune (b :: t)).2 ∧ (decodeRune (b :: t)).2 ≤ (b :: t).length := by
  rcases decodeRune_cases b t with ⟨_, h⟩ | ⟨b1, t1, ht, _, _, _, h⟩ |
    ⟨b1, b2, t1, ht, _, _, _, _, _, h⟩ | ⟨b1, b2, b3, t1, ht, _, _, _, _, _, _, h⟩ | ⟨_, h⟩
  all_goals (rw [h]; first | subst ht | skip)
  all_goals simp

theorem decodeRune_ascii (b : Byte) (t : Bytes) (h : b.val < 128) :
    decodeRune (b :: t) = (b.val, 1) := by
  simp only [decodeRune, h, if_true]

theorem isCont_iff (b : Byte) : isCont b = true ↔ 128 ≤ b.val ∧ b.val ≤ 191 := by
  simp [isCont]

/-- A well-formed encoding outside ASCII is what `encodeRune` writes for the
rune it decodes to, and decoding looks at no byte beyond it. -/
theorem decodeRune_valid (b : Byte) (t : Bytes) (hb : 128 ≤ b.val)
    (hv : ¬((decodeRune (b :: t)).1 = runeError ∧ (decodeRune (b :: t)).2 = 1)) :
    encodeRune (decodeRune (b :: t)).1 = (b :: t).take (decodeRune (b :: t)).2 ∧
      128 ≤ (decodeRune (b :: t)).1 ∧
      ¬(55296 ≤ (decodeRune (b :: t)).1 ∧ (decodeRune (b :: t)).1 < 57344) ∧
      (decodeRune (b :: t)).1 < 1114112 ∧
      ∀ x, decodeRune ((b :: t).take (decodeRune (b :: t)).2 ++ x) = decodeRune (b :: t) := by
  rcases decodeRune_cases b t with ⟨h0, _⟩ | ⟨b1, t1, ht, hlo, hhi, hc1, h⟩ |
    ⟨b1, b2, t1, ht, hlo, hhi, hl1, hh1, hc2, h⟩ |
    ⟨b1, b2, b3, t1, ht, hlo, hhi, hl1, hh1, hc2, hc3, h⟩ | ⟨_, h⟩
  · omega
  · subst ht
    rw [isCont_iff] at hc1
    rw [h]
    refine ⟨?_, by simp only []; omega, by simp only []; omega, by simp only []; omega, ?_⟩
    · simp only [encodeRune, List.take]
      rw [if_neg (by omega), if_pos (by omega)]
      rw [byte_ofNat b _ (by omega), byte_ofNat b1 _ (by omega)]
    · intro x
      have hc1b : isCont b1 = true := (isCont_iff b1).2 hc1
      simp only [List.take, List.cons_append, List.nil_append, decodeRune, hc1b, if_true]
      rw [if_neg (by omega), if_pos ⟨hlo, hhi⟩]
  · subst ht
    rw [isCont_iff] at hc2
    rw [h]
    split_ifs at hl1 hh1 <;>
    refine ⟨?_, by simp only []; omega, by simp only []; omega, by simp only []; omega, ?_⟩
    all_goals first
      | (simp only [encodeRune, List.take]
         rw [if_neg (by omega), if_neg (by omega), if_neg (by omega), if_pos (by omega)]
         rw [byte_ofNat b _ (by omega), byte_ofNat b1 _ (by omega), byte_ofNat b2 _ (by omega)])
      | (intro x
         have hc2b : isCont b2 = true := (isCont_iff b2).2 hc2
         simp only [List.take, List.cons_append, List.nil_append, decodeRune, hc2b]
         rw [if_neg (by omega), if_neg (by omega), if_pos ⟨hlo, hhi⟩]
         rw [if_pos (by split_ifs; simp; omega)])
  · subst ht
    rw [isCont_iff] at hc2 hc3
    rw [h]
    split_ifs at hl1 hh1 <;>
    refine ⟨?_, by simp only []; omega, by simp only []; omega, by simp only []; omega, ?_⟩
    all_goals first
      | (simp only [encodeRune, List.take]
         rw [if_neg (by omega), if_neg (by omega), if_neg (by omega), if_neg (by omega)]
         rw [byte_ofNat b _ (by omega), byte_ofNat b1 _ (by omega), byte_ofNat b2 _ (by omega),
           byte_ofNat b3 _ (by omega)])
      | (intro x
         have hc2b : isCont b2 = true := (isCont_iff b2).2 hc2
         have hc3b : isCont b3 = true := (isCont_iff b3).2 hc3
         simp only [List.take, List.cons_append, List.nil_append, decodeRune, hc2b, hc3b]
         rw [if_neg (by omega), if_neg (by omega), if_neg (by omega), if_pos ⟨hlo, hhi⟩]
         rw [if_pos (by split_ifs; simp; omega)])
  · exact absurd (by rw [h]; exact ⟨rfl, rfl⟩) hv

/-! ## JSON strings -/

theorem parseString_quote (k : Nat) (rest : Bytes) :
    parseString (k + 1) (34 :: rest) = some ([], rest) := by
  conv => lhs; unfold parseString
  simp only [if_true]

theorem parseString_plain (k : Nat) (c : Byte) (rest : Bytes) (h1 : c ≠ 34) (h2 : c ≠ 92)
    (h3 : 32 ≤ c.val) (h4 : c.val < 128) :
    parseString (k + 1) (c :: rest) = (parseString k rest).map (fun p => (c :: p.1, p.2)) := by
  conv => lhs; unfold parseString
  simp only [h1, h2, if_false, if_neg (show ¬ c.val < 32 by omega), h4, if_true]

theorem parseString_simple (k : Nat) (e b : Byte) (rest : Bytes) (h1 : e ≠ 117)
    (h2 : simpleEscape e = some b) :
    parseString (k + 1) (92 :: e :: rest) =
      (parseString k rest).map (fun p => (b :: p.1, p.2)) := by
  conv => lhs; unfold parseString
  simp only [h1, h2, if_false, if_true, if_neg (show ¬ (92 : Byte) = 34 by decide)]

theorem parseString_u (k : Nat) (rr : Nat) (rest : Bytes) (h1 : getu4 rest = some rr)
    (h2 : ¬(55296 ≤ rr ∧ rr < 57344)) :
    parseString (k + 1) (92 :: 117 :: rest) =
      (parseString k (rest.drop 4)).map (fun p => (encodeRune rr ++ p.1, p.2)) := by
  conv => lhs; unfold parseString
  simp only [h1, h2, if_false, if_true, if_neg (show ¬ (92 : Byte) = 34 by decide)]

theorem parseString_multi (k : Nat) (c : Byte) (rest : Bytes) (h : 128 ≤ c.val) :
    parseString (k + 1) (c :: rest) =
      (parseString k ((c :: rest).drop (decodeRune (c :: rest)).2)).map (fun p =>
        (encodeRune (decodeRune (c :: rest)).1 ++ p.1, p.2)) := by
  have h34 : c ≠ 34 := by intro e; subst e; exact absurd h (by decide)
  have h92 : c ≠ 92 := by intro e; subst e; exact absurd h (by decide)
  conv => lhs; unfold parseString
  simp only [h34, h92, if_false, if_neg (show ¬ c.val < 32 by omega),
    if_neg (show ¬ c.val < 128 by omega)]

theorem unhex_hexLower : ∀ n : Fin 16, unhex (hexLower.getD n.val 0) = some n.val := by decide

theorem getu4_hex00 (b : Byte) (more : Bytes) :
    getu4 (48 :: 48 :: hexLower.getD (b.val / 16) 0 :: hexLower.getD (b.val % 16) 0 :: more) =
      some b.val := by
  have ha := unhex_hexLower ⟨b.val / 16, by omega⟩
  have hb := unhex_hexLower ⟨b.val % 16, by omega⟩
  have h0 : unhex 48 = some 0 := by decide
  simp only [getu4, ha, hb, h0]
  congr 1
  omega

theorem encodeRune_ascii (b : Byte) (h : b.val < 128) : encodeRune b.val = [b] := by
  simp only [encodeRune, h, if_true]
  rw [byte_ofNat b _ rfl]

theorem validUTF8Loop_cons (fuel : Nat) (b : Byte) (t : Bytes)
    (h : validUTF8Loop (fuel + 1) (b :: t) = true) :
    ¬((decodeRune (b :: t)).1 = runeError ∧ (decodeRune (b :: t)).2 = 1) ∧
      validUTF8Loop fuel ((b :: t).drop (decodeRune (b :: t)).2) = true := by
  simp only [validUTF8Loop] at h
  split_ifs at h with hc
  exact ⟨hc, h⟩

/-- The JSON string reader gives back the bytes the writer escaped, when they
are well-formed UTF-8. -/
theorem parseString_jsonEscapeLoop : ∀ (fuel : Nat) (s rest : Bytes) (k : Nat),
    s.length ≤ fuel → validUTF8Loop fuel s = true → (jsonEscapeLoop fuel s).length < k →
    parseString k (jsonEscapeLoop fuel s ++ 34 :: rest) = some (s, rest) := by
  intro fuel
  induction fuel with
  | zero =>
    intro s rest k hl _ hk
    have hs : s = [] := List.length_eq_zero.mp (Nat.le_zero.mp hl)
    subst hs
    obtain ⟨k1, rfl⟩ : ∃ k1, k = k1 + 1 := ⟨k - 1, by omega⟩
    simp only [jsonEscapeLoop, List.nil_append, parseString_quote]
  | succ fuel ih =>
    intro s rest k hl hv hk
    obtain ⟨k1, rfl⟩ : ∃ k1, k = k1 + 1 := ⟨k - 1, by omega⟩
    cases s with
    | nil => simp only [jsonEscapeLoop, List.nil_append, parseString_quote]
    | cons b t =>
      obtain ⟨hv1, hv2⟩ := validUTF8Loop_cons fuel b t hv
      have hlt : t.length ≤ fuel := by simpa using hl
      by_cases hb : b.val < 128
      · rw [decodeRune_ascii b t hb] at hv2
        simp only [List.drop_succ_cons, List.drop_zero] at hv2
        have ih1 := fun k (hk : (jsonEscapeLoop fuel t).length < k) => ih t rest k hlt hv2 hk
        simp only [jsonEscapeLoop, hb, if_true] at hk ⊢
        split_ifs at hk ⊢ with h1 h2 h3 h4 h5
        · have hs : 32 ≤ b.val ∧ b ≠ 34 ∧ b ≠ 92 := by
            simp only [htmlSafe, Bool.and_eq_true, decide_eq_true_eq, bne_iff_ne, ne_eq] at h1
            exact ⟨h1.1.1.1.1.1.1, h1.1.1.1.1.2, h1.2⟩
          simp only [List.cons_append, List.length_cons] at hk ⊢
          rw [parseString_plain k1 b _ hs.2.1 hs.2.2 hs.1 hb, ih1 k1 (by omega)]
          rfl
        · have hse : simpleEscape b = some b := by
            rcases h2 with h | h <;> subst h <;> rfl
          have hne : b ≠ 117 := by
            rcases h2 with h | h <;> subst h <;> decide
          simp only [List.cons_append, List.length_cons] at hk ⊢
          rw [parseString_simple k1 b b _ hne hse, ih1 k1 (by omega)]
          rfl
        · subst h3
          simp only [List.cons_append, List.length_cons] at hk ⊢
          rw [parseString_simple k1 110 10 _ (by decide) rfl, ih1 k1 (by omega)]
          rfl
        · subst h4
          simp only [List.cons_append, List.length_cons] at hk ⊢
          rw [parseString_simple k1 114 13 _ (by decide) rfl, ih1 k1 (by omega)]
          rfl
        · subst h5
          simp only [List.cons_append, List.length_cons] at hk ⊢
          rw [parseString_simple k1 116 9 _ (by decide) rfl, ih1 k1 (by omega)]
          rfl
        · simp only [List.cons_append, List.length_cons] at hk ⊢
          rw [parseString_u k1 b.val _ (getu4_hex00 b _) (by omega)]
          simp only [List.drop_succ_cons, List.drop_zero]
          rw [ih1 k1 (by omega), encodeRune_ascii b hb]
          rfl
      · have hb1 : 128 ≤ b.val := by omega
        obtain ⟨henc, hge, hsur, hmax, hdec⟩ := decodeRune_valid b t hb1 hv1
        obtain ⟨hpos, hle⟩ := decodeRune_size_pos b t
        have hdl : ((b :: t).drop (decodeRune (b :: t)).2).length ≤ fuel := by
          simp only [List.length_drop, List.length_cons] at hl ⊢
          omega
        have ih1 := fun k (hk : (jsonEscapeLoop fuel ((b :: t).drop (decodeRune (b :: t)).2)).length < k) =>
          ih _ rest k hdl hv2 hk
        simp only [jsonEscapeLoop, hb, if_false, hv1] at hk ⊢
        have htd : (b :: t).take (decodeRune (b :: t)).2 ++ (b :: t).drop (decodeRune (b :: t)).2 =
            b :: t := List.take_append_drop _ _
        split_ifs at hk ⊢ with h1
        · have hg : getu4 (50 :: 48 :: 50 :: hexLower.getD ((decodeRune (b :: t)).1 % 16) 0 ::
              (jsonEscapeLoop fuel ((b :: t).drop (decodeRune (b :: t)).2) ++ 34 :: rest)) =
              some (decodeRune (b :: t)).1 := by
            rcases h1 with h | h <;> rw [h] <;> rfl
          simp only [List.cons_append, List.length_cons] at hk ⊢
          rw [parseString_u k1 _ _ hg hsur]
          simp only [List.drop_succ_cons, List.drop_zero]
          rw [ih1 k1 (by omega), henc]
          simp only [Option.map_some', htd]
        · obtain ⟨n1, hn1⟩ : ∃ n1, (decodeRune (b :: t)).2 = n1 + 1 :=
            ⟨(decodeRune (b :: t)).2 - 1, by omega⟩
          have htk : (b :: t).take (decodeRune (b :: t)).2 = b :: t.take n1 := by
            rw [hn1]; rfl
          have hlen : ((b :: t).take (decodeRune (b :: t)).2).length = (decodeRune (b :: t)).2 := by
            rw [List.length_take]; omega
          have hd := hdec (jsonEscapeLoop fuel ((b :: t).drop (decodeRune (b :: t)).2) ++ 34 :: rest)
          have hdrop : (((b :: t).take (decodeRune (b :: t)).2) ++
              (jsonEscapeLoop fuel ((b :: t).drop (decodeRune (b :: t)).2) ++ 34 :: rest)).drop
                (decodeRune (b :: t)).2 =
              jsonEscapeLoop fuel ((b :: t).drop (decodeRune (b :: t)).2) ++ 34 :: rest := by
            rw [List.drop_append_of_le_length (by omega), List.drop_of_length_le (by omega)]
            rfl
          rw [List.append_assoc]
          rw [htk] at hd hdrop ⊢
          simp only [List.cons_append] at hd hdrop hk ⊢
          rw [parseString_multi k1 b _ hb1, hd, hdrop, ih1 k1 ?_, henc]
          · simp only [Option.map_some', htd]
          · simp only [List.length_cons, List.length_append] at hk
            omega

/-! ## Decimal numbers -/

theorem formatUintAux_eq : ∀ (n fuel : Nat) (acc : Bytes), n < fuel →
    formatUintAux fuel n acc = formatUintAux (n + 1) n [] ++ acc := by
  intro n
  induction n using Nat.strong_induction_on with
  | _ n ih =>
    intro fuel acc hf
    obtain ⟨f, rfl⟩ : ∃ f, fuel = f + 1 := ⟨fuel - 1, by omega⟩
    by_cases h : n < 10
    · simp only [formatUintAux, h, if_true, List.singleton_append]
    · simp only [formatUintAux, h, if_false]
      rw [ih (n / 10) (by omega) f _ (by omega), ih (n / 10) (by omega) n _ (by omega)]
      simp

theorem formatUint_small (n : Nat) (h : n < 10) : formatUint n = [Fin.ofNat (48 + n)] := by
  simp only [formatUint, formatUintAux, h, if_true]

theorem formatUint_step (n : Nat) (h : 10 ≤ n) :
    formatUint n = formatUint (n / 10) ++ [Fin.ofNat (48 + n % 10)] := by
  have h1 : ¬ n < 10 := by omega
  have h2 : formatUint n = formatUintAux n (n / 10) [Fin.ofNat (48 + n % 10)] := by
    simp only [formatUint, formatUintAux, h1, if_false]
  rw [h2, formatUintAux_eq (n / 10) n _ (by omega)]
  rfl

theorem isDigit_digit (d : Nat) (h : d < 10) :
    isDigit (Fin.ofNat (48 + d) : Byte) = true ∧ ((Fin.ofNat (48 + d) : Byte).val - 48 = d) ∧
      ((Fin.ofNat (48 + d) : Byte) = 48 ↔ d = 0) := by
  have hv : (Fin.ofNat (48 + d) : Byte).val = 48 + d := by
    simp only [Fin.ofNat]
    omega
  refine ⟨?_, ?_, ?_⟩
  · simp only [isDigit, hv, Bool.and_eq_true, decide_eq_true_eq]; omega
  · omega
  · constructor
    · intro h0
      have := congrArg Fin.val h0
      rw [hv] at this
      have h48 : Fin.val (48 : Byte) = 48 := rfl
      rw [h48] at this
      omega
    · intro h0; subst h0; rfl

theorem formatUint_digits (n : Nat) : ∀ c ∈ formatUint n, isDigit c = true := by
  induction n using Nat.strong_induction_on with
  | _ n ih =>
    by_cases h : n < 10
    · rw [formatUint_small n h]
      intro c hc
      simp only [List.mem_singleton] at hc
      subst hc
      exact (isDigit_digit n h).1
    · rw [formatUint_step n (by omega)]
      intro c hc
      rcases List.mem_append.mp hc with h1 | h1
      · exact ih (n / 10) (by omega) c h1
      · simp only [List.mem_singleton] at h1
        subst h1
        exact (isDigit_digit (n % 10) (by omega)).1

/-- The decimal text of a number starts with a digit other than `0`, unless
the number is zero and the text is `0`. -/
theorem formatUint_head (n : Nat) :
    ∃ d ds, formatUint n = d :: ds ∧ isDigit d = true ∧ (d = 48 → ds = []) := by
  induction n using Nat.strong_induction_on with
  | _ n ih =>
    by_cases h : n < 10
    · exact ⟨_, [], formatUint_small n h, (isDigit_digit n h).1, fun _ => rfl⟩
    · obtain ⟨d, ds, he, hd, h0⟩ := ih (n / 10) (by omega)
      refine ⟨d, ds ++ [Fin.ofNat (48 + n % 10)], ?_, hd, ?_⟩
      · rw [formatUint_step n (by omega), he]; rfl
      · intro hd0
        exfalso
        have hds := h0 hd0
        subst hd0 hds
        by_cases h1 : n / 10 < 10
        · rw [formatUint_small _ h1] at he
          have h2 := (List.cons.inj he).1
          have := ((isDigit_digit (n / 10) h1).2.2).mp h2
          omega
        · rw [formatUint_step _ (by omega)] at he
          obtain ⟨d1, ds1, he1, _, _⟩ := ih (n / 10 / 10) (by omega)
          rw [he1] at he
          simp at he

theorem parseDigits_append (xs : Bytes) (d : Byte) (hd : isDigit d = true) : ∀ acc v,
    parseDigits xs acc = some v → parseDigits (xs ++ [d]) acc = some (v * 10 + (d.val - 48)) := by
  induction xs with
  | nil =>
    intro acc v h
    simp only [parseDigits, Option.some.injEq] at h
    subst h
    simp only [List.nil_append, parseDigits, hd, if_true]
  | cons c xs ih =>
    intro acc v h
    simp only [parseDigits, List.cons_append] at h ⊢
    split_ifs at h ⊢ with hc
    exact ih _ v h

theorem parseDigits_formatUint (n : Nat) : parseDigits (formatUint n) 0 = some n := by
  induction n using Nat.strong_induction_on with
  | _ n ih =>
    by_cases h : n < 10
    · rw [formatUint_small n h]
      obtain ⟨h1, h2, _⟩ := isDigit_digit n h
      simp only [parseDigits, h1, if_true, h2, Nat.zero_mul, Nat.zero_add]
    · rw [formatUint_step n (by omega)]
      obtain ⟨h1, h2, _⟩ := isDigit_digit (n % 10) (by omega)
      rw [parseDigits_append _ _ h1 0 (n / 10) (ih (n / 10) (by omega)), h2]
      congr 1
      omega

theorem parseUint_formatUint (bits n : Nat) (h : n < 2 ^ bits) :
    parseUint bits (formatUint n) = some n := by
  obtain ⟨d, ds, he, _, _⟩ := formatUint_head n
  have hne : formatUint n ≠ [] := by rw [he]; simp
  simp only [parseUint, hne, if_false, parseDigits_formatUint, h, if_true]

/-! ## JSON values and members -/

theorem skipWS_cons (c : Byte) (s : Bytes) (h : isSpace c = false) : skipWS (c :: s) = c :: s := by
  simp only [skipWS, h, Bool.false_eq_true, if_false]

theorem parseString_jsonEscape (s rest : Bytes) (k : Nat) (hv : validUTF8 s = true)
    (hk : (jsonEscape s).length < k) :
    parseString k (jsonEscape s ++ 34 :: rest) = some (s, rest) :=
  parseString_jsonEscapeLoop s.length s rest k (Nat.le_refl _) hv hk

/-- A quoted string is read back as the string. -/
theorem parseValue_jsonQuote (k depth : Nat) (s rest : Bytes) (hv : validUTF8 s = true) :
    parseValue (k + 1) depth (jsonQuote s ++ rest) = some (JValue.str s, rest) := by
  have h1 : jsonQuote s ++ rest = 34 :: (jsonEscape s ++ 34 :: rest) := by
    simp [jsonQuote]
  rw [h1]
  conv => lhs; unfold parseValue
  rw [skipWS_cons 34 _ (by decide)]
  simp only [if_true]
  rw [parseString_jsonEscape s rest _ hv (by simp)]
  rfl

theorem takeWhile_append_stop {p : Byte → Bool} (ds : Bytes) (c : Byte) (rest : Bytes)
    (hds : ∀ x ∈ ds, p x = true) (hc : p c = false) :
    (ds ++ c :: rest).takeWhile p = ds ∧ (ds ++ c :: rest).dropWhile p = c :: rest := by
  induction ds with
  | nil => simp [List.takeWhile, List.dropWhile, hc]
  | cons d ds ih =>
    have hd : p d = true := hds d (by simp)
    have ih1 := ih (fun x hx => hds x (by simp [hx]))
    simp [List.takeWhile, List.dropWhile, hd, ih1.1, ih1.2]

theorem dropWhile_all {p : Byte → Bool} (ds : Bytes) (hds : ∀ x ∈ ds, p x = true) :
    ds.dropWhile p = [] := by
  induction ds with
  | nil => rfl
  | cons d ds ih =>
    have hd : p d = true := hds d (by simp)
    simp [List.dropWhile, hd, ih (fun x hx => hds x (by simp [hx]))]

theorem isDigit_facts : ∀ c : Byte, isDigit c = true →
    isNumChar c = true ∧ isSpace c = false ∧ c ≠ 34 ∧ c ≠ 123 ∧ c ≠ 91 ∧ c ≠ 45 ∧
      c ≠ 116 ∧ c ≠ 102 ∧ c ≠ 110 := by decide

theorem validNumber_formatUint (n : Nat) : validNumber (formatUint n) = true := by
  obtain ⟨d, ds, he, hd, h0⟩ := formatUint_head n
  have hall := formatUint_digits n
  rw [he] at hall ⊢
  have h45 : d ≠ 45 := (isDigit_facts d hd).2.2.2.2.2.1
  have hds : ∀ x ∈ ds, isDigit x = true := fun x hx => hall x (by simp [hx])
  have hm : dropMinus (d :: ds) = d :: ds := by
    simp only [dropMinus, h45, if_false]
  unfold validNumber
  rw [hm]
  simp only []
  by_cases hz : d = 48
  · rw [h0 hz]
    simp only [hz, if_true]
    rfl
  · simp only [hz, if_false, hd, Bool.true_and, dropWhile_all ds hds]
    rfl

theorem parseNumber_formatUint (n : Nat) (c : Byte) (rest : Bytes) (hc : isNumChar c = false) :
    parseNumber (formatUint n ++ c :: rest) = some (formatUint n, c :: rest) := by
  have hall : ∀ x ∈ formatUint n, isNumChar x = true :=
    fun x hx => (isDigit_facts x (formatUint_digits n x hx)).1
  obtain ⟨h1, h2⟩ := takeWhile_append_stop (formatUint n) c rest hall hc
  simp only [parseNumber, h1, h2, validNumber_formatUint, if_true]

theorem startsWith_head_ne (a b : Byte) (s p : Bytes) (h : a ≠ b) :
    startsWith (a :: s) (b :: p) = false := by
  simp [startsWith, h]

/-- A decimal number is read back as its literal. -/
theorem parseValue_formatUint (k depth n : Nat) (c : Byte) (rest : Bytes)
    (hc : isNumChar c = false) :
    parseValue (k + 1) depth (formatUint n ++ c :: rest) =
      some (JValue.num (formatUint n), c :: rest) := by
  have hp := parseNumber_formatUint n c rest hc
  obtain ⟨d, ds, he, hd, _⟩ := formatUint_head n
  obtain ⟨_, hsp, h34, h123, h91, _, ht, hf, hn⟩ := isDigit_facts d hd
  rw [he] at hp ⊢
  simp only [List.cons_append] at hp ⊢
  conv => lhs; unfold parseValue
  rw [skipWS_cons d _ hsp]
  simp only [h34, h123, h91, if_false]
  rw [show ascii "true" = 116 :: ascii "rue" from rfl, show ascii "false" = 102 :: ascii "alse" from rfl,
    show ascii "null" = 110 :: ascii "ull" from rfl,
    startsWith_head_ne d 116 _ _ ht, startsWith_head_ne d 102 _ _ hf, startsWith_head_ne d 110 _ _ hn]
  simp only [Bool.false_eq_true, if_false, hp, Option.map_some']

/-- A member that is followed by a comma. -/
theorem parseMembers_comma (k depth : Nat) (key vrest more : Bytes) (v : JValue)
    (hkey : validUTF8 key = true)
    (hval : parseValue (k + 1) depth vrest = some (v, 44 :: more)) :
    parseMembers (k + 2) depth (jsonQuote key ++ 58 :: vrest) =
      (parseMembers (k + 1) depth more).map (fun p => ((key, v) :: p.1, p.2)) := by
  have h1 : jsonQuote key ++ 58 :: vrest = 34 :: (jsonEscape key ++ 34 :: 58 :: vrest) := by
    simp [jsonQuote]
  rw [h1]
  conv => lhs; unfold parseMembers
  rw [skipWS_cons 34 _ (by decide)]
  simp only [if_true]
  rw [parseString_jsonEscape key (58 :: vrest) _ hkey (by simp)]
  simp only []
  rw [skipWS_cons 58 _ (by decide)]
  simp only [if_true, hval]
  rw [skipWS_cons 44 _ (by decide)]
  simp only [if_true]

/-- The last member, followed by the closing brace. -/
theorem parseMembers_last (k depth : Nat) (key vrest more : Bytes) (v : JValue)
    (hkey : validUTF8 key = true)
    (hval : parseValue (k + 1) depth vrest = some (v, 125 :: more)) :
    parseMembers (k + 2) depth (jsonQuote key ++ 58 :: vrest) = some ([(key, v)], more) := by
  have h1 : jsonQuote key ++ 58 :: vrest = 34 :: (jsonEscape key ++ 34 :: 58 :: vrest) := by
    simp [jsonQuote]
  rw [h1]
  conv => lhs; unfold parseMembers
  rw [skipWS_cons 34 _ (by decide)]
  simp only [if_true]
  rw [parseString_jsonEscape key (58 :: vrest) _ hkey (by simp)]
  simp only []
  rw [skipWS_cons 58 _ (by decide)]
  simp only [if_true, hval]
  rw [skipWS_cons 125 _ (by decide)]
  simp only [if_true, if_neg (show ¬ (125 : Byte) = 44 by decide)]

/-- An object whose first member starts with a quote. -/
theorem parseValue_object (k depth : Nat) (body : Bytes) (hd : depth < maxNestingDepth) :
    parseValue (k + 1) depth (123 :: 34 :: body) =
      (parseMembers k (depth + 1) (34 :: body)).map (fun p => (JValue.obj p.1, p.2)) := by
  conv => lhs; unfold parseValue
  rw [skipWS_cons 123 _ (by decide)]
  simp only [if_neg (show ¬ (123 : Byte) = 34 by decide), if_true,
    if_neg (show ¬ maxNestingDepth ≤ depth by omega)]
  rw [skipWS_cons 34 _ (by decide)]
  simp only [if_neg (show ¬ (34 : Byte) = 125 by decide)]

/-! ## Records written and read back -/

theorem decode_valueDepository (v init : ValueDepository) :
    decodeStruct valueDepositoryMember init
        (JValue.obj [(ascii "name", JValue.str v.Name),
          (ascii "contentType", JValue.str v.ContentType),
          (ascii "contentID", JValue.str v.ContentID),
          (ascii "platform", JValue.str v.Platform),
          (ascii "trustedTimestamp", JValue.str v.TrustedTimestamp)]) = some v := by
  have k11 : keyMatches (ascii "name") (ascii "name") = true := by decide
  have k12 : keyMatches (ascii "name") (ascii "contentType") = false := by decide
  have k13 : keyMatches (ascii "name") (ascii "contentID") = false := by decide
  have k14 : keyMatches (ascii "name") (ascii "platform") = false := by decide
  have k15 : keyMatches (ascii "name") (ascii "trustedTimestamp") = false := by decide
  have k22 : keyMatches (ascii "contentType") (ascii "contentType") = true := by decide
  have k23 : keyMatches (ascii "contentType") (ascii "contentID") = false := by decide
  have k24 : keyMatches (ascii "contentType") (ascii "platform") = false := by decide
  have k25 : keyMatches (ascii "contentType") (ascii "trustedTimestamp") = false := by decide
  have k33 : keyMatches (ascii "contentID") (ascii "contentID") = true := by decide
  have k34 : keyMatches (ascii "contentID") (ascii "platform") = false := by decide
  have k35 : keyMatches (ascii "contentID") (ascii "trustedTimestamp") = false := by decide
  have k44 : keyMatches (ascii "platform") (ascii "platform") = true := by decide
  have k45 : keyMatches (ascii "platform") (ascii "trustedTimestamp") = false := by decide
  have k55 : keyMatches (ascii "trustedTimestamp") (ascii "trustedTimestamp") = true := by decide
  simp only [decodeStruct, List.foldlM, valueDepositoryMember, decodeStringField, k11, k12, k13,
    k14, k15, k22, k23, k24, k25, k33, k34, k35, k44, k45, k55, if_true, if_false,
    Bool.false_eq_true, Option.map_some', Option.some_bind, Option.bind_eq_bind, bind_pure_comp,
    pure, Option.bind]

/-- What `json.Marshal` writes for a `ValueDepository` whose strings are
well-formed UTF-8 is read back by `json.Unmarshal` as the same record. -/
theorem unmarshal_marshal_valueDepository (v init : ValueDepository) (data : Bytes)
    (h1 : validUTF8 v.Name = true) (h2 : validUTF8 v.ContentType = true)
    (h3 : validUTF8 v.ContentID = true) (h4 : validUTF8 v.Platform = true)
    (h5 : validUTF8 v.TrustedTimestamp = true)
    (hm : jsonMarshalValueDepository v = GoResult.ok data) :
    jsonUnmarshal valueDepositoryMember data init = some v := by
  simp only [jsonMarshalValueDepository, GoResult.ok.injEq] at hm
  have hlen : 6 ≤ data.length := by
    rw [← hm]
    simp [jsonQuote]
    omega
  obtain ⟨k, hk⟩ : ∃ k, data.length = k + 6 := ⟨data.length - 6, by omega⟩
  have hparse : parseValue (data.length + 1) 0 data =
      some (JValue.obj [(ascii "name", JValue.str v.Name),
          (ascii "contentType", JValue.str v.ContentType),
          (ascii "contentID", JValue.str v.ContentID),
          (ascii "platform", JValue.str v.Platform),
          (ascii "trustedTimestamp", JValue.str v.TrustedTimestamp)], []) := by
    rw [hk, ← hm]
    have hq : ∀ x, jsonQuote (ascii "name") ++ x = 34 :: (jsonEscape (ascii "name") ++ 34 :: x) := by
      intro x; simp [jsonQuote]
    rw [hq, parseValue_object _ 0 _ (by decide), ← hq]
    rw [parseMembers_comma (k + 4) 1 _ _ _ (JValue.str v.Name) (by decide)
      (parseValue_jsonQuote _ _ _ _ h1)]
    rw [parseMembers_comma (k + 3) 1 _ _ _ (JValue.str v.ContentType) (by decide)
      (parseValue_jsonQuote _ _ _ _ h2)]
    rw [parseMembers_comma (k + 2) 1 _ _ _ (JValue.str v.ContentID) (by decide)
      (parseValue_jsonQuote _ _ _ _ h3)]
    rw [parseMembers_comma (k + 1) 1 _ _ _ (JValue.str v.Platform) (by decide)
      (parseValue_jsonQuote _ _ _ _ h4)]
    rw [parseMembers_last k 1 _ _ [] (JValue.str v.TrustedTimestamp) (by decide)
      (parseValue_jsonQuote _ _ _ _ h5)]
    rfl
  simp only [jsonUnmarshal, jsonParse, hparse, skipWS, if_true]
  exact decode_valueDepository v init

theorem validUTF8_of_ascii (s : Bytes) (h : ∀ c ∈ s, c.val < 128) : validUTF8 s = true := by
  unfold validUTF8
  induction s with
  | nil => rfl
  | cons b t ih =>
    have hb : b.val < 128 := h b (by simp)
    have ht := ih (fun c hc => h c (by simp [hc]))
    have hne : ¬(b.val = runeError ∧ True) := by
      simp only [runeError]; omega
    simp only [List.length_cons, validUTF8Loop, decodeRune_ascii b t hb, List.drop_succ_cons,
      List.drop_zero, ht, hne, if_false]

theorem isDigit_lt (c : Byte) (h : isDigit c = true) : c.val < 128 := by
  simp only [isDigit, Bool.and_eq_true, decide_eq_true_eq] at h
  omega

theorem validUTF8_formatInt (t : Int) : validUTF8 (formatInt t) = true := by
  apply validUTF8_of_ascii
  intro c hc
  unfold formatInt at hc
  split_ifs at hc
  · rcases List.mem_cons.mp hc with h | h
    · subst h; decide
    · exact isDigit_lt c (formatUint_digits _ c h)
  · exact isDigit_lt c (formatUint_digits _ c hc)

theorem decode_message (m init : Message) (h : m.Nonce < 2 ^ 64) :
    decodeStruct messageMember init
        (JValue.obj [(ascii "nonce", JValue.num (formatUint m.Nonce)),
          (ascii "publicKey", JValue.str m.PublicKey),
          (ascii "signature", JValue.str m.Signature)]) = some m := by
  have k11 : keyMatches (ascii "nonce") (ascii "nonce") = true := by decide
  have k12 : keyMatches (ascii "nonce") (ascii "publicKey") = false := by decide
  have k13 : keyMatches (ascii "nonce") (ascii "signature") = false := by decide
  have k22 : keyMatches (ascii "publicKey") (ascii "publicKey") = true := by decide
  have k23 : keyMatches (ascii "publicKey") (ascii "signature") = false := by decide
  have k33 : keyMatches (ascii "signature") (ascii "signature") = true := by decide
  simp only [decodeStruct, List.foldlM, messageMember, decodeStringField, decodeUint64Field,
    parseUint_formatUint 64 m.Nonce h, k11, k12, k13, k22, k23, k33, if_true, if_false,
    Bool.false_eq_true, Option.map_some', Option.some_bind, Option.bind_eq_bind, bind_pure_comp,
    pure, Option.bind]

/-- What `json.Marshal` writes for a `Message` whose nonce fits 64 bits and
whose strings are well-formed UTF-8 is read back as the same message. -/
theorem unmarshal_marshal_message (m init : Message) (data : Bytes)
    (h0 : m.Nonce < 2 ^ 64) (h1 : validUTF8 m.PublicKey = true)
    (h2 : validUTF8 m.Signature = true)
    (hm : jsonMarshalMessage m = GoResult.ok data) :
    jsonUnmarshal messageMember data init = some m := by
  simp only [jsonMarshalMessage, GoResult.ok.injEq] at hm
  have hlen : 4 ≤ data.length := by
    rw [← hm]
    simp [jsonQuote]
    omega
  obtain ⟨k, hk⟩ : ∃ k, data.length = k + 4 := ⟨data.length - 4, by omega⟩
  have hparse : parseValue (data.length + 1) 0 data =
      some (JValue.obj [(ascii "nonce", JValue.num (formatUint m.Nonce)),
          (ascii "publicKey", JValue.str m.PublicKey),
          (ascii "signature", JValue.str m.Signature)], []) := by
    rw [hk, ← hm]
    have hq : ∀ x, jsonQuote (ascii "nonce") ++ x = 34 :: (jsonEscape (ascii "nonce") ++ 34 :: x) := by
      intro x; simp [jsonQuote]
    rw [hq, parseValue_object _ 0 _ (by decide), ← hq]
    rw [parseMembers_comma (k + 2) 1 _ _ _ (JValue.num (formatUint m.Nonce)) (by decide)
      (parseValue_formatUint _ _ _ 44 _ (by decide))]
    rw [parseMembers_comma (k + 1) 1 _ _ _ (JValue.str m.PublicKey) (by decide)
      (parseValue_jsonQuote _ _ _ _ h1)]
    rw [parseMembers_last k 1 _ _ [] (JValue.str m.Signature) (by decide)
      (parseValue_jsonQuote _ _ _ _ h2)]
    rfl
  simp only [jsonUnmarshal, jsonParse, hparse, skipWS, if_true]
  exact decode_message m init h0

/-! ## The run -/

theorem parseQuery_value (v : Bytes) :
    parseQuery (ascii "value=" ++ queryEscape v) = some [(ascii "value", [v])] := by
  have h := parseQuery_pairs [(ascii "value", v)]
  have h1 : queryEscape (ascii "value") = ascii "value" := by decide
  simp only [List.map, joinAmp, h1, List.foldl, valuesAdd] at h
  exact h

theorem parseQuery_message_value (m v : Bytes) :
    parseQuery (ascii "message=" ++ (queryEscape m ++ (ascii "&value=" ++ queryEscape v))) =
      some [(ascii "message", [m]), (ascii "value", [v])] := by
  have h := parseQuery_pairs [(ascii "message", m), (ascii "value", v)]
  have h1 : queryEscape (ascii "value") = ascii "value" := by decide
  have h2 : queryEscape (ascii "message") = ascii "message" := by decide
  have h3 : (ascii "message" = ascii "value") = False := by decide
  simp only [List.map, joinAmp, h1, h2, List.foldl, valuesAdd, h3, if_false] at h
  rw [← h]
  simp
  rfl

theorem foldlM_nonceMember_noKey (kvs : List (Bytes × JValue)) (n : NonceResponse)
    (h : ∀ kv ∈ kvs, keyMatches (ascii "nonce") kv.1 = false) :
    kvs.foldlM nonceMember n = some n := by
  induction kvs with
  | nil => rfl
  | cons kv kvs ih =>
    have h1 : keyMatches (ascii "nonce") kv.1 = false := h kv (by simp)
    have h2 : ∀ kv ∈ kvs, keyMatches (ascii "nonce") kv.1 = false :=
      fun x hx => h x (by simp [hx])
    simp [List.foldlM, nonceMember, h1, ih h2]

theorem startsWith_append (p s : Bytes) : startsWith (p ++ s) p = true := by
  induction p with
  | nil => cases s <;> rfl
  | cons a p ih => simp [startsWith, ih]

theorem startsWith_mem (s p : Bytes) (h : startsWith s p = true) : ∀ c ∈ p, c ∈ s := by
  induction p generalizing s with
  | nil => intro c hc; simp at hc
  | cons a p ih =>
    cases s with
    | nil => simp [startsWith] at h
    | cons b s =>
      simp only [startsWith, Bool.and_eq_true, beq_iff_eq] at h
      obtain ⟨hab, hs⟩ := h
      intro c hc
      rcases List.mem_cons.mp hc with h1 | h1
      · subst h1; subst hab; simp
      · exact List.mem_cons_of_mem _ (ih s hs c h1)

theorem getWalletInfo_ok_trace (lib : Lib) (w : World) (walletDir account : Bytes)
    (obj : WalletConfig) (h : (getWalletInfo lib w walletDir account).1 = GoResult.ok obj) :
    (getWalletInfo lib w walletDir account).2 =
      [Effect.stat (resolveWalletDir lib w walletDir),
        Effect.readFile (resolveWalletDir lib w walletDir ++ (ascii "/" ++ account))] := by
  revert h
  unfold getWalletInfo
  simp only []
  cases w.stat (resolveWalletDir lib w walletDir) with
  | error e => intro h; cases h
  | ok u =>
    simp only []
    cases w.readFile (resolveWalletDir lib w walletDir ++ (ascii "/" ++ account)) with
    | error e => intro h; cases h
    | ok c =>
      simp only []
      cases jsonUnmarshalWallet c { Address := [], PrivateKey := [] } with
      | none => intro h; cases h
      | some o =>
        simp only []
        split
        · intro h; cases h
        · intro _; rfl

theorem getNonce_trace (w : World) (h account : Bytes) :
    (getNonce w h account).2 =
      [Effect.httpDo
        { url := h ++ (ascii "/basic/currentNonce?account=" ++ queryEscape account)
          method := ascii "GET", headers := [], body := [] }] := by
  have hurl : h ++ (CurrentNonce ++ (ascii "?" ++ valuesEncode (valuesAdd [] (ascii "account") account))) =
      h ++ (ascii "/basic/currentNonce?account=" ++ queryEscape account) := by
    have h1 : queryEscape (ascii "account") = ascii "account" := by decide
    simp [valuesEncode, valuesAdd, sortByKey, insertByKey, joinAmp, h1]
    rfl
  unfold getNonce
  simp only [hurl, MethodGet]
  cases w.transport _ with
  | error e => rfl
  | ok resp => simp only []; cases jsonUnmarshal nonceMember resp { Nonce := 0 } <;> rfl

theorem runE_trusted_log (lib : Lib) (w : World) (f : Flags) (obj : WalletConfig)
    (block : Bytes) (pk : ECPrivateKey)
    (hhost : f.host ≠ []) (hun : f.untrusted = false)
    (hwallet : (getWalletInfo lib w f.wallet f.account).1 = GoResult.ok obj)
    (hpem : pemDecode lib obj.PrivateKey = some block)
    (hkey : lib.parseECPrivateKey block = GoResult.ok pk) :
    (runE lib w f).2.trace =
        [Effect.stat (resolveWalletDir lib w f.wallet),
          Effect.readFile (resolveWalletDir lib w f.wallet ++ (ascii "/" ++ f.account)),
          Effect.httpDo
            { url := f.host ++ (ascii "/basic/currentNonce?account=" ++ queryEscape obj.Address)
              method := ascii "GET", headers := [], body := [] },
          Effect.httpDo
            { url := f.host ++ ascii "/basic/putValue"
              method := ascii "POST"
              headers := [(ascii "Content-Type", ascii "application/x-www-form-urlencoded")]
              body := ascii "message=" ++ (queryEscape
                  (generateMessageBase64 lib (getNonce w f.host obj.Address).1 pk
                    (generateValueDepotBase64 (w.clock 0) f.name f.contentType f.contentID
                      f.platform)) ++
                (ascii "&value=" ++ queryEscape
                  (generateValueDepotBase64 (w.clock 0) f.name f.contentType f.contentID
                    f.platform))) }] ∧
      (runE lib w f).2.signed =
        [((getNonce w f.host obj.Address).1,
          generateValueDepotBase64 (w.clock 0) f.name f.contentType f.contentID f.platform)] ∧
      (runE lib w f).2.clockReads = 1 := by
  have htr := getWalletInfo_ok_trace lib w f.wallet f.account obj hwallet
  have hpair : getWalletInfo lib w f.wallet f.account = (GoResult.ok obj,
      [Effect.stat (resolveWalletDir lib w f.wallet),
        Effect.readFile (resolveWalletDir lib w f.wallet ++ (ascii "/" ++ f.account))]) :=
    Prod.ext hwallet htr
  unfold runE
  simp only [hhost, hun, if_false, hpair, hpem, hkey, valuesEncode_message_value, getNonce_trace,
    Bool.false_eq_true]
  cases w.transport _ <;> exact ⟨rfl, rfl, rfl⟩

theorem getWalletInfo_ok_address (lib : Lib) (w : World) (walletDir account : Bytes)
    (obj : WalletConfig) (h : (getWalletInfo lib w walletDir account).1 = GoResult.ok obj) :
    obj.Address = account := by
  revert h
  unfold getWalletInfo
  simp only []
  cases w.stat (resolveWalletDir lib w walletDir) with
  | error e => intro h; cases h
  | ok u =>
    simp only []
    cases w.readFile (resolveWalletDir lib w walletDir ++ (ascii "/" ++ account)) with
    | error e => intro h; cases h
    | ok c =>
      simp only []
      cases jsonUnmarshalWallet c { Address := [], PrivateKey := [] } with
      | none => intro h; cases h
      | some o =>
        simp only []
        by_cases ho : o.Address = account
        · simp only [ho, ne_eq, not_true_eq_false, if_false]
          intro h
          cases h
          exact ho
        · simp only [ho, ne_eq, not_false_eq_true, if_true]
          intro h; cases h

theorem getNonce_value (w : World) (h account : Bytes) :
    (getNonce w h account).1 =
      match w.transport
          { url := h ++ (ascii "/basic/currentNonce?account=" ++ queryEscape account)
            method := ascii "GET", headers := [], body := [] } with
      | GoResult.error _ => 0
      | GoResult.ok resp =>
        match jsonUnmarshal nonceMember resp { Nonce := 0 } with
        | none => 0
        | some n => n.Nonce := by
  have hurl : h ++ (CurrentNonce ++ (ascii "?" ++ valuesEncode (valuesAdd [] (ascii "account") account))) =
      h ++ (ascii "/basic/currentNonce?account=" ++ queryEscape account) := by
    have h1 : queryEscape (ascii "account") = ascii "account" := by decide
    simp [valuesEncode, valuesAdd, sortByKey, insertByKey, joinAmp, h1]
    rfl
  unfold getNonce
  simp only [hurl, MethodGet]
  cases w.transport _ with
  | error e => rfl
  | ok resp => simp only []; cases jsonUnmarshal nonceMember resp { Nonce := 0 } <;> rfl

theorem runE_untrusted_trace (lib : Lib) (w : World) (f : Flags) (hhost : f.host ≠ [])
    (hun : f.untrusted = true) :
    (runE lib w f).2.trace =
      [Effect.httpDo
        { url := f.host ++ ascii "/basic/putUntrustValue"
          method := ascii "POST"
          headers := [(ascii "Content-Type", ascii "application/x-www-form-urlencoded")]
          body := ascii "value=" ++ queryEscape
            (generateValueDepotBase64 (w.clock 0) f.name f.contentType f.contentID f.platform) }] := by
  unfold runE
  simp only [hhost, hun, if_true, if_false, valuesEncode_value]
  cases w.transport _ <;> rfl

/-- A `null` element beyond the current length of `PrivateKey` takes the byte
an earlier value left in the backing array. -/
theorem jsonUnmarshalWallet_repeated_key :
    jsonUnmarshalWallet repeatedKeyWalletFile { Address := [], PrivateKey := [] } =
      some { Address := ascii "alice", PrivateKey := [5, 9] } := by
  decide

/-- The root directory resolves to the empty path: `strings.TrimSuffix` removes
its only slash, and the wallet file is then looked up at `/` followed by the
account. -/
theorem resolveWalletDir_root (lib : Lib) (w : World) :
    resolveWalletDir lib w (ascii "/") = [] := by
  rfl

/-- A trusted run whose wallet loads and whose key bytes hold a PEM block that
`x509.ParseECPrivateKey` rejects returns that error after the two wallet
effects, before any transport call. -/
theorem runE_key_parse_error (lib : Lib) (w : World) (f : Flags) (obj : WalletConfig)
    (block e : Bytes)
    (hhost : f.host ≠ []) (hun : f.untrusted = false)
    (hwallet : (getWalletInfo lib w f.wallet f.account).1 = GoResult.ok obj)
    (hpem : pemDecode lib obj.PrivateKey = some block)
    (hkey : lib.parseECPrivateKey block = GoResult.error e) :
    runE lib w f =
      (Outcome.error e,
        { trace := [Effect.stat (resolveWalletDir lib w f.wallet),
            Effect.readFile (resolveWalletDir lib w f.wallet ++ (ascii "/" ++ f.account))]
          stdout := [], clockReads := 1, signed := [] }) := by
  have hpair : getWalletInfo lib w f.wallet f.account = (GoResult.ok obj,
      [Effect.stat (resolveWalletDir lib w f.wallet),
        Effect.readFile (resolveWalletDir lib w f.wallet ++ (ascii "/" ++ f.account))]) :=
    Prod.ext hwallet (getWalletInfo_ok_trace lib w f.wallet f.account obj hwallet)
  unfold runE
  simp only [hhost, hun, if_false, hpair, hpem, hkey, Bool.false_eq_true]

/-- A trusted run whose wallet loads and in whose key bytes `pem.Decode` finds
no block panics after the two wallet effects, before any transport call. -/
theorem runE_no_pem_block (lib : Lib) (w : World) (f : Flags) (obj : WalletConfig)
    (hhost : f.host ≠ []) (hun : f.untrusted = false)
    (hwallet : (getWalletInfo lib w f.wallet f.account).1 = GoResult.ok obj)
    (hpem : pemDecode lib obj.PrivateKey = none) :
    runE lib w f =
      (Outcome.panic,
        { trace := [Effect.stat (resolveWalletDir lib w f.wallet),
            Effect.readFile (resolveWalletDir lib w f.wallet ++ (ascii "/" ++ f.account))]
          stdout := [], clockReads := 1, signed := [] }) := by
  have hpair : getWalletInfo lib w f.wallet f.account = (GoResult.ok obj,
      [Effect.stat (resolveWalletDir lib w f.wallet),
        Effect.readFile (resolveWalletDir lib w f.wallet ++ (ascii "/" ++ f.account))]) :=
    Prod.ext hwallet (getWalletInfo_ok_trace lib w f.wallet f.account obj hwallet)
  unfold runE
  simp only [hhost, hun, if_false, hpair, hpem, Bool.false_eq_true]

/-! # The claims -/

/-- C1: in a trusted run with a host, in which the wallet loads, a PEM block is
found and the key parses, the trace is the check of the wallet directory, the
read of the wallet file, a GET to `host/basic/currentNonce?account=` followed
by the escaped wallet address, and a POST to `host/basic/putValue` with the
form content type, in this order and nothing else.  The POST body holds
exactly the two form keys `message` and `value`; the nonce handed to the
signing step is the result of the `getNonce` call that issued that GET; the
wallet address is the account flag. -/
theorem trusted_run_trace (lib : Lib) (w : World) (f : Flags) (obj : WalletConfig)
    (block : Bytes) (pk : ECPrivateKey)
    (hhost : f.host ≠ []) (hun : f.untrusted = false)
    (hwallet : (getWalletInfo lib w f.wallet f.account).1 = GoResult.ok obj)
    (hpem : pemDecode lib obj.PrivateKey = some block)
    (hkey : lib.parseECPrivateKey block = GoResult.ok pk) :
    (runE lib w f).2.trace =
        [Effect.stat (resolveWalletDir lib w f.wallet),
          Effect.readFile (resolveWalletDir lib w f.wallet ++ (ascii "/" ++ f.account)),
          Effect.httpDo
            { url := f.host ++ (ascii "/basic/currentNonce?account=" ++ queryEscape obj.Address)
              method := ascii "GET", headers := [], body := [] },
          Effect.httpDo
            { url := f.host ++ ascii "/basic/putValue"
              method := ascii "POST"
              headers := [(ascii "Content-Type", ascii "application/x-www-form-urlencoded")]
              body := ascii "message=" ++ (queryEscape
                  (generateMessageBase64 lib (getNonce w f.host obj.Address).1 pk
                    (generateValueDepotBase64 (w.clock 0) f.name f.contentType f.contentID
                      f.platform)) ++
                (ascii "&value=" ++ queryEscape
                  (generateValueDepotBase64 (w.clock 0) f.name f.contentType f.contentID
                    f.platform))) }] ∧
      parseQuery (ascii "message=" ++ (queryEscape
          (generateMessageBase64 lib (getNonce w f.host obj.Address).1 pk
            (generateValueDepotBase64 (w.clock 0) f.name f.contentType f.contentID
              f.platform)) ++
          (ascii "&value=" ++ queryEscape
            (generateValueDepotBase64 (w.clock 0) f.name f.contentType f.contentID
              f.platform)))) =
        some [(ascii "message",
            [generateMessageBase64 lib (getNonce w f.host obj.Address).1 pk
              (generateValueDepotBase64 (w.clock 0) f.name f.contentType f.contentID
                f.platform)]),
          (ascii "value",
            [generateValueDepotBase64 (w.clock 0) f.name f.contentType f.contentID
              f.platform])] ∧
      (runE lib w f).2.signed.map Prod.fst = [(getNonce w f.host obj.Address).1] ∧
      (getNonce w f.host obj.Address).2 =
        [Effect.httpDo
          { url := f.host ++ (ascii "/basic/currentNonce?account=" ++ queryEscape obj.Address)
            method := ascii "GET", headers := [], body := [] }] ∧
      obj.Address = f.account := by
  obtain ⟨h1, h2, _⟩ := runE_trusted_log lib w f obj block pk hhost hun hwallet hpem hkey
  exact ⟨h1, parseQuery_message_value _ _, by rw [h2]; rfl, getNonce_trace _ _ _,
    getWalletInfo_ok_address lib w f.wallet f.account obj hwallet⟩

/-- C1 at the sample run: the hypotheses hold there; the trace is the check of
`/w`, the read of `/w/alice`, the GET for the account `alice` and the POST; the
nonce handed to the signing step is the `7` the gateway answered. -/
theorem trusted_run_trace_witness :
    sampleFlags.host ≠ [] ∧
      (getWalletInfo sampleLib (sampleWorld sampleWalletFile) sampleFlags.wallet
          sampleFlags.account).1 =
        GoResult.ok { Address := ascii "alice", PrivateKey := ascii "-----BEGIN " } ∧
      (runE sampleLib (sampleWorld sampleWalletFile) sampleFlags).2.trace =
        [Effect.stat (ascii "/w"),
          Effect.readFile (ascii "/w/alice"),
          Effect.httpDo
            { url := ascii "http://h/basic/currentNonce?account=alice"
              method := ascii "GET", headers := [], body := [] },
          Effect.httpDo
            { url := ascii "http://h/basic/putValue"
              method := ascii "POST"
              headers := [(ascii "Content-Type", ascii "application/x-www-form-urlencoded")]
              body := ascii "message=" ++ (queryEscape
                  (generateMessageBase64 sampleLib 7 { d := 1 }
                    (generateValueDepotBase64 1700000000 (ascii "doc1") (ascii "pdf")
                      (ascii "abc123") (ascii "linux"))) ++
                (ascii "&value=" ++ queryEscape
                  (generateValueDepotBase64 1700000000 (ascii "doc1") (ascii "pdf")
                    (ascii "abc123") (ascii "linux")))) }] ∧
      (runE sampleLib (sampleWorld sampleWalletFile) sampleFlags).2.signed.map Prod.fst = [7] :=
  ⟨by decide, by decide,
    (trusted_run_trace sampleLib (sampleWorld sampleWalletFile) sampleFlags
      { Address := ascii "alice", PrivateKey := ascii "-----BEGIN " } (ascii "-----BEGIN ")
      { d := 1 } (by decide) rfl (by decide) (by decide) rfl).1,
    (trusted_run_trace sampleLib (sampleWorld sampleWalletFile) sampleFlags
      { Address := ascii "alice", PrivateKey := ascii "-----BEGIN " } (ascii "-----BEGIN ")
      { d := 1 } (by decide) rfl (by decide) (by decide) rfl).2.2.1⟩

/-- C2: an untrusted run with a host has exactly one effect, a POST to
`host/basic/putUntrustValue` with the form content type whose body is
`value=` followed by the escaped encoded value.  The body holds the single form
key `value`; no wallet directory is checked, no file is read and no GET is
issued, whatever the wallet and account flags are. -/
theorem untrusted_run_trace (lib : Lib) (w : World) (f : Flags) (hhost : f.host ≠ [])
    (hun : f.untrusted = true) :
    (runE lib w f).2.trace =
        [Effect.httpDo
          { url := f.host ++ ascii "/basic/putUntrustValue"
            method := ascii "POST"
            headers := [(ascii "Content-Type", ascii "application/x-www-form-urlencoded")]
            body := ascii "value=" ++ queryEscape
              (generateValueDepotBase64 (w.clock 0) f.name f.contentType f.contentID f.platform) }] ∧
      parseQuery (ascii "value=" ++ queryEscape
          (generateValueDepotBase64 (w.clock 0) f.name f.contentType f.contentID f.platform)) =
        some [(ascii "value",
          [generateValueDepotBase64 (w.clock 0) f.name f.contentType f.contentID f.platform])] ∧
      (∀ p, Effect.stat p ∉ (runE lib w f).2.trace ∧ Effect.readFile p ∉ (runE lib w f).2.trace) ∧
      (∀ r, Effect.httpDo r ∈ (runE lib w f).2.trace → r.method ≠ ascii "GET") := by
  have htrace := runE_untrusted_trace lib w f hhost hun
  refine ⟨htrace, parseQuery_value _, ?_, ?_⟩
  · intro p
    rw [htrace]
    simp
  · intro r hr
    rw [htrace] at hr
    simp at hr
    subst hr
    show ascii "POST" ≠ ascii "GET"
    decide

/-- C2 at the sample flags with `untrusted` set. -/
theorem untrusted_run_trace_witness :
    ({ sampleFlags with untrusted := true } : Flags).host ≠ [] ∧
      (runE sampleLib (sampleWorld sampleWalletFile) { sampleFlags with untrusted := true }).2.trace =
        [Effect.httpDo
          { url := ascii "http://h/basic/putUntrustValue"
            method := ascii "POST"
            headers := [(ascii "Content-Type", ascii "application/x-www-form-urlencoded")]
            body := ascii "value=" ++ queryEscape
              (generateValueDepotBase64 1700000000 (ascii "doc1") (ascii "pdf") (ascii "abc123")
                (ascii "linux")) }] :=
  ⟨by decide,
    (untrusted_run_trace sampleLib (sampleWorld sampleWalletFile)
      { sampleFlags with untrusted := true } (by decide) rfl).1⟩

/-- C3: in a trusted run that reaches the POST, the clock is read once, the
payload handed to `generateMessageBase64` is the string that the one call of
`generateValueDepotBase64` returned, and the form-decoded body of the POST has
that same string under `value` and, under `message`, the message made from
it. -/
theorem signed_payload_is_posted_value (lib : Lib) (w : World) (f : Flags) (obj : WalletConfig)
    (block : Bytes) (pk : ECPrivateKey)
    (hhost : f.host ≠ []) (hun : f.untrusted = false)
    (hwallet : (getWalletInfo lib w f.wallet f.account).1 = GoResult.ok obj)
    (hpem : pemDecode lib obj.PrivateKey = some block)
    (hkey : lib.parseECPrivateKey block = GoResult.ok pk) :
    (runE lib w f).2.clockReads = 1 ∧
      (runE lib w f).2.signed.map Prod.snd =
        [generateValueDepotBase64 (w.clock 0) f.name f.contentType f.contentID f.platform] ∧
      ∃ req message, (runE lib w f).2.trace.getLast? = some (Effect.httpDo req) ∧
        req.url = f.host ++ ascii "/basic/putValue" ∧
        parseQuery req.body =
          some [(ascii "message", [message]),
            (ascii "value",
              [generateValueDepotBase64 (w.clock 0) f.name f.contentType f.contentID
                f.platform])] ∧
        message = generateMessageBase64 lib (getNonce w f.host obj.Address).1 pk
          (generateValueDepotBase64 (w.clock 0) f.name f.contentType f.contentID f.platform) := by
  obtain ⟨h1, h2, h3⟩ := runE_trusted_log lib w f obj block pk hhost hun hwallet hpem hkey
  exact ⟨h3, by rw [h2]; rfl, _, _, by rw [h1]; rfl, rfl, parseQuery_message_value _ _, rfl⟩

/-- C3 at the sample run. -/
theorem signed_payload_is_posted_value_witness :
    sampleFlags.untrusted = false ∧
      (runE sampleLib (sampleWorld sampleWalletFile) sampleFlags).2.signed.map Prod.snd =
        [generateValueDepotBase64 ((sampleWorld sampleWalletFile).clock 0) sampleFlags.name
          sampleFlags.contentType sampleFlags.contentID sampleFlags.platform] :=
  ⟨rfl,
    (signed_payload_is_posted_value sampleLib (sampleWorld sampleWalletFile) sampleFlags
      { Address := ascii "alice", PrivateKey := ascii "-----BEGIN " } (ascii "-----BEGIN ")
      { d := 1 } (by decide) rfl (by decide) (by decide) rfl).2.1⟩

/-- C4, amended: for every clock reading and all four strings that are
well-formed UTF-8, `generateValueDepotBase64` returns a non-empty string; it
base64-decodes to a JSON text that `json.Unmarshal` reads back as the same
name, content type, content id and platform, with the decimal rendering of the
clock reading as the timestamp. -/
theorem generateValueDepotBase64_roundtrip (t : Int) (name contentType contentID platform : Bytes)
    (init : ValueDepository)
    (h1 : validUTF8 name = true) (h2 : validUTF8 contentType = true)
    (h3 : validUTF8 contentID = true) (h4 : validUTF8 platform = true) :
    generateValueDepotBase64 t name contentType contentID platform ≠ [] ∧
      ∃ raw, b64Decode (generateValueDepotBase64 t name contentType contentID platform) =
          some raw ∧
        jsonUnmarshal valueDepositoryMember raw init =
          some { Name := name, ContentType := contentType, ContentID := contentID,
                 Platform := platform, TrustedTimestamp := formatInt t } := by
  obtain ⟨raw, hm⟩ : ∃ raw, jsonMarshalValueDepository
      { Name := name, ContentType := contentType, ContentID := contentID, Platform := platform,
        TrustedTimestamp := formatInt t } = GoResult.ok raw := ⟨_, rfl⟩
  have hout : generateValueDepotBase64 t name contentType contentID platform = b64Encode raw := by
    simp only [generateValueDepotBase64, hm]
  have hraw : raw ≠ [] := by
    simp only [jsonMarshalValueDepository, GoResult.ok.injEq] at hm
    rw [← hm]; simp
  refine ⟨?_, raw, ?_, ?_⟩
  · rw [hout]
    exact fun h => hraw ((b64Encode_eq_nil raw).mp h)
  · rw [hout, b64Decode_b64Encode]
  · exact unmarshal_marshal_valueDepository _ init raw h1 h2 h3 h4 (validUTF8_formatInt t) hm

/-- C4, amended, at the record of the spec's scenario. -/
theorem generateValueDepotBase64_roundtrip_witness :
    validUTF8 (ascii "doc1") = true ∧
      ∃ raw, b64Decode (generateValueDepotBase64 1700000000 (ascii "doc1") (ascii "pdf")
          (ascii "abc123") (ascii "linux")) = some raw ∧
        jsonUnmarshal valueDepositoryMember raw
            { Name := [], ContentType := [], ContentID := [], Platform := [],
              TrustedTimestamp := [] } =
          some { Name := ascii "doc1", ContentType := ascii "pdf", ContentID := ascii "abc123",
                 Platform := ascii "linux", TrustedTimestamp := formatInt 1700000000 } :=
  ⟨by decide,
    (generateValueDepotBase64_roundtrip 1700000000 (ascii "doc1") (ascii "pdf") (ascii "abc123")
      (ascii "linux") _ (by decide) (by decide) (by decide) (by decide)).2⟩

/-- C4 as stated fails: the one-byte name `0xFF` is not well-formed UTF-8,
`json.Marshal` writes it as the escape of U+FFFD, and the name read back is the
three bytes `EF BF BD`, not the name that went in. -/
theorem generateValueDepotBase64_invalid_name :
    (b64Decode (generateValueDepotBase64 1700000000 [255] (ascii "pdf") (ascii "abc123")
        (ascii "linux"))).bind
        (fun raw => jsonUnmarshal valueDepositoryMember raw
          { Name := [], ContentType := [], ContentID := [], Platform := [],
            TrustedTimestamp := [] }) =
      some { Name := [239, 191, 189], ContentType := ascii "pdf", ContentID := ascii "abc123",
             Platform := ascii "linux", TrustedTimestamp := ascii "1700000000" } ∧
    ¬ ∃ raw, b64Decode (generateValueDepotBase64 1700000000 [255] (ascii "pdf") (ascii "abc123")
          (ascii "linux")) = some raw ∧
        jsonUnmarshal valueDepositoryMember raw
            { Name := [], ContentType := [], ContentID := [], Platform := [],
              TrustedTimestamp := [] } =
          some { Name := [255], ContentType := ascii "pdf", ContentID := ascii "abc123",
                 Platform := ascii "linux", TrustedTimestamp := ascii "1700000000" } := by
  have h : (b64Decode (generateValueDepotBase64 1700000000 [255] (ascii "pdf") (ascii "abc123")
        (ascii "linux"))).bind
        (fun raw => jsonUnmarshal valueDepositoryMember raw
          { Name := [], ContentType := [], ContentID := [], Platform := [],
            TrustedTimestamp := [] }) =
      some { Name := [239, 191, 189], ContentType := ascii "pdf", ContentID := ascii "abc123",
             Platform := ascii "linux", TrustedTimestamp := ascii "1700000000" } := by
    decide
  refine ⟨h, ?_⟩
  rintro ⟨raw, hr, hu⟩
  rw [hr, Option.some_bind, hu] at h
  exact absurd h (by decide)

/-- C5, amended: when the signing primitive succeeds and the public key and
signature it returns are well-formed UTF-8, the output of
`generateMessageBase64` base64-decodes to a JSON text that `json.Unmarshal`
reads back as the message with exactly the input nonce, for every nonce below
`2^64`, and with that public key and signature. -/
theorem generateMessageBase64_roundtrip (lib : Lib) (nonce : Nat) (key : ECPrivateKey)
    (payload publicKey signature : Bytes) (init : Message)
    (hn : nonce < 2 ^ 64)
    (hs : lib.generateSignature nonce key payload = GoResult.ok (publicKey, signature))
    (h1 : validUTF8 publicKey = true) (h2 : validUTF8 signature = true) :
    ∃ raw, b64Decode (generateMessageBase64 lib nonce key payload) = some raw ∧
      jsonUnmarshal messageMember raw init =
        some { Nonce := nonce, PublicKey := publicKey, Signature := signature } := by
  obtain ⟨raw, hm⟩ : ∃ raw, jsonMarshalMessage
      { Nonce := nonce, PublicKey := publicKey, Signature := signature } = GoResult.ok raw :=
    ⟨_, rfl⟩
  have hout : generateMessageBase64 lib nonce key payload = b64Encode raw := by
    simp only [generateMessageBase64, hs, hm]
  exact ⟨raw, by rw [hout, b64Decode_b64Encode],
    unmarshal_marshal_message _ init raw hn h1 h2 hm⟩

/-- C5, amended, at the largest nonce, `2^64 - 1`. -/
theorem generateMessageBase64_roundtrip_witness :
    (18446744073709551615 : Nat) < 2 ^ 64 ∧
      ∃ raw, b64Decode (generateMessageBase64 sampleLib 18446744073709551615 { d := 1 }
          (ascii "payload")) = some raw ∧
        jsonUnmarshal messageMember raw { Nonce := 0, PublicKey := [], Signature := [] } =
          some { Nonce := 18446744073709551615, PublicKey := ascii "UEs=",
                 Signature := ascii "U0lH" } :=
  ⟨by decide,
    generateMessageBase64_roundtrip sampleLib 18446744073709551615 { d := 1 } (ascii "payload")
      (ascii "UEs=") (ascii "U0lH") _ (by decide) rfl (by decide) (by decide)⟩

/-- C5 as stated fails: with a signing primitive that fails, the output is the
`Fatal:` text, which does not base64-decode, so no message and no nonce is
read back; and with a primitive whose public key is the byte `0xFF`, the public
key read back is `EF BF BD`, not the value the primitive produced. -/
theorem generateMessageBase64_not_decodable :
    b64Decode (generateMessageBase64 failingLib 7 { d := 1 } (ascii "payload")) = none ∧
      (b64Decode (generateMessageBase64 rawKeyLib 7 { d := 1 } (ascii "payload"))).bind
          (fun raw => jsonUnmarshal messageMember raw
            { Nonce := 0, PublicKey := [], Signature := [] }) =
        some { Nonce := 7, PublicKey := [239, 191, 189], Signature := ascii "U0lH" } ∧
      rawKeyLib.generateSignature 7 { d := 1 } (ascii "payload") =
        GoResult.ok ([255], ascii "U0lH") := by
  refine ⟨by decide, by decide, rfl⟩

/-- C6, amended: when `os.Stat` succeeds on the path `getWalletInfo` checks (the
wallet directory argument, or the default directory when it is empty, with one
trailing slash removed), `os.ReadFile` returns the account's file under that
path and the content decodes as a `WalletConfig`, then `getWalletInfo` returns
that record unchanged if its address is the account, and the error
`account ... not found` if it is not.  In no world does it succeed with an
address other than the account. -/
theorem getWalletInfo_address_check (lib : Lib) (w : World) (walletDir account content : Bytes)
    (rec : WalletConfig)
    (hdir : w.stat (resolveWalletDir lib w walletDir) = GoResult.ok ())
    (hfile : w.readFile (resolveWalletDir lib w walletDir ++ (ascii "/" ++ account)) =
      GoResult.ok content)
    (hrec : jsonUnmarshalWallet content { Address := [], PrivateKey := [] } = some rec) :
    (rec.Address = account → (getWalletInfo lib w walletDir account).1 = GoResult.ok rec) ∧
      (rec.Address ≠ account →
        (getWalletInfo lib w walletDir account).1 =
          GoResult.error (ascii "account " ++ (account ++ ascii " not found"))) ∧
      (∀ (w1 : World) (d a : Bytes) (obj : WalletConfig),
        (getWalletInfo lib w1 d a).1 = GoResult.ok obj → obj.Address = a) := by
  refine ⟨?_, ?_, fun w1 d a obj h => getWalletInfo_ok_address lib w1 d a obj h⟩
  · intro h
    simp only [getWalletInfo, hdir, hfile, hrec, h, ne_eq, not_true_eq_false, if_false]
  · intro h
    simp only [getWalletInfo, hdir, hfile, hrec, h, ne_eq, not_false_eq_true, if_true]

/-- C6 at the sample world: the file of `alice` loads for the account `alice`
and is refused for the account `bob`, whose file holds the same record. -/
theorem getWalletInfo_address_check_witness :
    (getWalletInfo sampleLib (sampleWorld sampleWalletFile) (ascii "/w/") (ascii "alice")).1 =
        GoResult.ok { Address := ascii "alice", PrivateKey := ascii "-----BEGIN " } ∧
      (getWalletInfo sampleLib renamedWorld (ascii "/w") (ascii "bob")).1 =
        GoResult.error (ascii "account bob not found") :=
  ⟨(getWalletInfo_address_check sampleLib (sampleWorld sampleWalletFile) (ascii "/w/")
      (ascii "alice") sampleWalletFile { Address := ascii "alice", PrivateKey := ascii "-----BEGIN " }
      (by decide) (by decide) (by decide)).1 (by decide),
    (getWalletInfo_address_check sampleLib renamedWorld (ascii "/w")
      (ascii "bob") sampleWalletFile { Address := ascii "alice", PrivateKey := ascii "-----BEGIN " }
      (by decide) (by decide) (by decide)).2.1 (by decide)⟩

/-- C6 as stated fails at the root directory: `/` exists and the file `/alice`
in it is a well-formed record for `alice`, but `getWalletInfo` removes the
slash, asks `os.Stat` about the empty path and returns the directory error. -/
theorem getWalletInfo_root_directory :
    rootWorld.stat (ascii "/") = GoResult.ok () ∧
      rootWorld.readFile (ascii "/alice") = GoResult.ok sampleWalletFile ∧
      jsonUnmarshalWallet sampleWalletFile { Address := [], PrivateKey := [] } =
        some { Address := ascii "alice", PrivateKey := ascii "-----BEGIN " } ∧
      getWalletInfo sampleLib rootWorld (ascii "/") (ascii "alice") =
        (GoResult.error (ascii "walletDir error: stat : no such file or directory"),
          [Effect.stat []]) := by
  refine ⟨by decide, by decide, by decide, by decide⟩

/-- C7: with an empty host flag the command returns the error
`no host provided` and has no effect at all: no transport call, no wallet
read, no clock reading, nothing printed; trusted or untrusted alike. -/
theorem no_host_no_effects (lib : Lib) (w : World) (f : Flags) :
    runE lib w { f with host := [] } =
      (Outcome.error (ascii "no host provided"),
        { trace := [], stdout := [], clockReads := 0, signed := [] }) := by
  simp [runE]

/-- C8, the failing input: a trusted run whose wallet file loads but holds
empty key bytes.  `pem.Decode` finds no block, the nil block is dereferenced and
the run panics instead of returning an error; it has made no transport call. -/
theorem missing_pem_block_panics (lib : Lib) :
    runE lib (sampleWorld emptyKeyWalletFile) sampleFlags =
      (Outcome.panic,
        { trace := [Effect.stat (ascii "/w"), Effect.readFile (ascii "/w/alice")]
          stdout := [], clockReads := 1, signed := [] }) := by
  rfl

/-- C9: `getNonce` issues one GET.  It returns 0 when the transport fails and
when the response does not decode; otherwise it returns the `Nonce` field of
the decoded response, which is 0 for a JSON object without a `nonce` key.  Its
result is a bare number, so the response `{"nonce":0}` and a failed call give
the same result. -/
theorem getNonce_result (w : World) (h account : Bytes) :
    (getNonce w h account).2 =
        [Effect.httpDo
          { url := h ++ (ascii "/basic/currentNonce?account=" ++ queryEscape account)
            method := ascii "GET", headers := [], body := [] }] ∧
      (∀ e, w.transport
            { url := h ++ (ascii "/basic/currentNonce?account=" ++ queryEscape account)
              method := ascii "GET", headers := [], body := [] } = GoResult.error e →
          (getNonce w h account).1 = 0) ∧
      (∀ resp, w.transport
            { url := h ++ (ascii "/basic/currentNonce?account=" ++ queryEscape account)
              method := ascii "GET", headers := [], body := [] } = GoResult.ok resp →
          (jsonUnmarshal nonceMember resp { Nonce := 0 } = none → (getNonce w h account).1 = 0) ∧
          (∀ n, jsonUnmarshal nonceMember resp { Nonce := 0 } = some n →
            (getNonce w h account).1 = n.Nonce) ∧
          (∀ kvs, jsonParse resp = some (JValue.obj kvs) →
            (∀ kv ∈ kvs, keyMatches (ascii "nonce") kv.1 = false) →
            (getNonce w h account).1 = 0) ∧
          (resp = ascii "\x7b\"nonce\":0\x7d" → (getNonce w h account).1 = 0)) := by
  refine ⟨getNonce_trace w h account, ?_, ?_⟩
  · intro e he
    rw [getNonce_value, he]
  · intro resp hr
    rw [getNonce_value, hr]
    refine ⟨?_, ?_, ?_, ?_⟩
    · intro hnone
      simp only [hnone]
    · intro n hn
      simp only [hn]
    · intro kvs hp hk
      have : jsonUnmarshal nonceMember resp { Nonce := 0 } = some { Nonce := 0 } := by
        simp only [jsonUnmarshal, hp, decodeStruct]
        exact foldlM_nonceMember_noKey kvs _ hk
      simp only [this]
    · intro hresp
      subst hresp
      have : jsonUnmarshal nonceMember (ascii "\x7b\"nonce\":0\x7d") { Nonce := 0 } =
          some { Nonce := 0 } := by decide
      simp only [this]

/-- C9 at the sample world, whose gateway answers `{"nonce":7}`, and at a
world whose transport fails. -/
theorem getNonce_result_witness :
    (getNonce (sampleWorld sampleWalletFile) (ascii "http://h") (ascii "alice")).1 = 7 ∧
      (getNonce offlineWorld (ascii "http://h") (ascii "alice")).1 = 0 :=
  ⟨((getNonce_result (sampleWorld sampleWalletFile) (ascii "http://h") (ascii "alice")).2.2
      (ascii "\x7b\"nonce\":7\x7d") (by decide)).2.1 { Nonce := 7 } (by decide),
    (getNonce_result offlineWorld (ascii "http://h") (ascii "alice")).2.1
      (ascii "connection refused") (by decide)⟩

/-- C10: the output of `generateMessageBase64` begins with `Fatal: ` exactly
when signature generation or JSON marshalling failed.  When signing succeeds
the output consists of characters of the standard base64 alphabet and `=` and
base64-decodes; when signing fails the output does not base64-decode and holds
a character outside that set.  So the two kinds of output are disjoint. -/
theorem generateMessageBase64_sentinel (lib : Lib) (nonce : Nat) (key : ECPrivateKey)
    (value : Bytes) :
    (startsWith (generateMessageBase64 lib nonce key value) (ascii "Fatal: ") = true ↔
        ((∃ e, lib.generateSignature nonce key value = GoResult.error e) ∨
          ∃ sig e, lib.generateSignature nonce key value = GoResult.ok sig ∧
            jsonMarshalMessage { Nonce := nonce, PublicKey := sig.1, Signature := sig.2 } =
              GoResult.error e)) ∧
      ((∃ sig, lib.generateSignature nonce key value = GoResult.ok sig) →
        (∀ c ∈ generateMessageBase64 lib nonce key value, c ∈ b64Alphabet ∨ c = b64Pad) ∧
          b64Decode (generateMessageBase64 lib nonce key value) ≠ none) ∧
      ((∃ e, lib.generateSignature nonce key value = GoResult.error e) →
        b64Decode (generateMessageBase64 lib nonce key value) = none ∧
          ∃ c ∈ generateMessageBase64 lib nonce key value, ¬(c ∈ b64Alphabet ∨ c = b64Pad)) := by
  have hcolon : ¬((58 : Byte) ∈ b64Alphabet ∨ (58 : Byte) = b64Pad ∨ (58 : Byte) = 13 ∨
      (58 : Byte) = 10) := by
    decide
  cases hs : lib.generateSignature nonce key value with
  | error e =>
    have hout : generateMessageBase64 lib nonce key value =
        ascii "Fatal: " ++ (ascii "generate signature failed: " ++ e) := by
      simp only [generateMessageBase64, hs]
      rfl
    have hmem : (58 : Byte) ∈ generateMessageBase64 lib nonce key value := by
      rw [hout]
      exact List.mem_append_left _ (by decide)
    refine ⟨⟨fun _ => Or.inl ⟨e, rfl⟩, fun _ => ?_⟩, fun h => ?_, fun _ => ⟨?_, 58, hmem, ?_⟩⟩
    · rw [hout]; exact startsWith_append _ _
    · obtain ⟨sig, h⟩ := h; cases h
    · cases hd : b64Decode (generateMessageBase64 lib nonce key value) with
      | none => rfl
      | some r => exact absurd (b64Decode_chars _ r hd 58 hmem) hcolon
    · intro h
      exact hcolon (h.elim Or.inl (fun h => Or.inr (Or.inl h)))
  | ok sig =>
    have hout : generateMessageBase64 lib nonce key value =
        b64Encode (123 :: (jsonQuote (ascii "nonce") ++ 58 :: (formatUint nonce ++ 44 ::
      (jsonQuote (ascii "publicKey") ++ 58 :: (jsonQuote sig.1 ++ 44 ::
      (jsonQuote (ascii "signature") ++ 58 :: (jsonQuote sig.2 ++ [125]))))))) := by
      simp only [generateMessageBase64, hs, jsonMarshalMessage]
    have halpha := b64Encode_alphabet (123 :: (jsonQuote (ascii "nonce") ++ 58 ::
      (formatUint nonce ++ 44 ::
      (jsonQuote (ascii "publicKey") ++ 58 :: (jsonQuote sig.1 ++ 44 ::
      (jsonQuote (ascii "signature") ++ 58 :: (jsonQuote sig.2 ++ [125])))))))
    rw [← hout] at halpha
    refine ⟨⟨fun h => ?_, fun h => ?_⟩, fun _ => ⟨halpha, ?_⟩, fun h => ?_⟩
    · have h58 := startsWith_mem _ _ h 58 (by decide)
      exact absurd ((halpha 58 h58).elim Or.inl (fun h => Or.inr (Or.inl h))) hcolon
    · rcases h with ⟨e, h⟩ | ⟨sig1, e, _, h⟩
      · cases h
      · simp [jsonMarshalMessage] at h
    · rw [hout, b64Decode_b64Encode]; simp
    · obtain ⟨e, h⟩ := h; cases h

/-- C10 at a failing and at a succeeding signing primitive. -/
theorem generateMessageBase64_sentinel_witness :
    startsWith (generateMessageBase64 failingLib 7 { d := 1 } (ascii "payload"))
        (ascii "Fatal: ") = true ∧
      b64Decode (generateMessageBase64 sampleLib 7 { d := 1 } (ascii "payload")) ≠ none :=
  ⟨(generateMessageBase64_sentinel failingLib 7 { d := 1 } (ascii "payload")).1.mpr
      (Or.inl ⟨ascii "no entropy", rfl⟩),
    ((generateMessageBase64_sentinel sampleLib 7 { d := 1 } (ascii "payload")).2.1
      ⟨(ascii "UEs=", ascii "U0lH"), rfl⟩).2⟩

end BcCli
